import Mathlib

/-!
Verification of the pyscheduler runtime coordination engine.

The Python data model and operations are shallowly embedded: dicts become
insertion-ordered association lists, sets of ids become canonical (strictly
sorted, duplicate-free) lists, UUID values are modelled by their canonical
string form and timestamps by their canonical ISO-8601 string form, and an
operation that can raise returns an `Except` value, paired with the state the
store holds after the call (unchanged when the operation raised before its
final write).
-/

set_option linter.unusedVariables false

namespace PyScheduler

/-- Task identifiers. Python `uuid.UUID` values are modelled by their canonical
string form, so `str` on a UUID and parsing a canonical string are identities. -/
abbrev UUID := String

/-- Timestamps. Python `datetime` values are modelled by their canonical
ISO-8601 string form, so `isoformat` and `fromisoformat` are identities. -/
abbrev PyDateTime := String

/-- JSON values from `models/types.py`; they are passed through serialization
verbatim. Floating point numbers are not modelled. -/
inductive JSON where
  | null
  | bool (b : Bool)
  | num (n : Int)
  | str (s : String)
  | arr (items : List JSON)
  | obj (fields : List (String × JSON))

/-- Lookup in a Python dict modelled as an insertion-ordered association list. -/
def dget {α : Type} : List (String × α) → String → Option α
  | [], _ => none
  | p :: rest, k => if p.1 = k then some p.2 else dget rest k

/-- Python dict assignment: update the existing entry in place or append. -/
def dset {α : Type} : List (String × α) → String → α → List (String × α)
  | [], k, v => [(k, v)]
  | p :: rest, k, v => if p.1 = k then (k, v) :: rest else p :: dset rest k v

/-- Python dict `pop`: drop the entry with the given key, if present. -/
def dpop {α : Type} : List (String × α) → String → List (String × α)
  | [], _ => []
  | p :: rest, k => if p.1 = k then rest else p :: dpop rest k

/-- Python dict membership test. -/
def dmem {α : Type} (d : List (String × α)) (k : String) : Bool :=
  (dget d k).isSome

/-- The keys of a dict, in insertion order. -/
def dkeys {α : Type} (d : List (String × α)) : List String :=
  d.map Prod.fst

/-- The values of a dict, in insertion order. -/
def dvalues {α : Type} (d : List (String × α)) : List α :=
  d.map Prod.snd

/-- Structural comparison of character lists by code point, used to fix a
canonical order on ids. -/
def charListLtb : List Char → List Char → Bool
  | [], [] => false
  | [], _ :: _ => true
  | _ :: _, [] => false
  | c :: cs, d :: ds =>
    if Nat.blt c.toNat d.toNat then true
    else if Nat.blt d.toNat c.toNat then false
    else charListLtb cs ds

/-- Strict canonical order on ids. -/
def strLtb (x y : UUID) : Bool := charListLtb x.data y.data

/-- Python sets of ids are modelled as canonical strictly sorted lists;
`sinsert` is `set.add` on that representation. -/
def sinsert (x : UUID) : List UUID → List UUID
  | [] => [x]
  | y :: ys =>
    if x = y then y :: ys
    else if strLtb x y then x :: y :: ys
    else y :: sinsert x ys

/-- Build the canonical list of a Python set from a list of elements. -/
def scanon (l : List UUID) : List UUID := l.foldr sinsert []

/-- The effect of Python `set.remove` on the canonical list, once the member is
known to be present (the caller checks membership and raises otherwise). -/
def sremove (x : UUID) (l : List UUID) : List UUID := l.filter (fun y => y != x)

/-- Task status from `models/enums.py`. -/
inductive Status where
  | pending
  | running
  | cancelled
  | failed
  | completed
deriving DecidableEq, Repr

/-- The StrEnum value of a status. -/
def Status.value : Status → String
  | .pending => "pending"
  | .running => "running"
  | .cancelled => "cancelled"
  | .failed => "failed"
  | .completed => "completed"

/-- Python `Status(value)`: `none` models the ValueError on an invalid value. -/
def statusOfValue (s : String) : Option Status :=
  if s = "pending" then some .pending
  else if s = "running" then some .running
  else if s = "cancelled" then some .cancelled
  else if s = "failed" then some .failed
  else if s = "completed" then some .completed
  else none

/-- Membership in `(Status.CANCELLED, Status.FAILED, Status.COMPLETED)`. -/
def Status.isFinished : Status → Bool
  | .cancelled => true
  | .failed => true
  | .completed => true
  | _ => false

/-! Runtime data model, from `models/data/runtime.py`. -/

/-- Generic specification for type-based implementation. -/
structure Specification where
  type : String
  parameters : List (String × JSON)

/-- Core task data. -/
structure Task where
  operation : Specification
  condition : Specification
  dependencies : List (String × UUID)

/-- Data of a pending task. -/
structure PendingTask where
  task : Task
  scheduled : PyDateTime

/-- Data of a running task. -/
structure RunningTask where
  task : Task
  scheduled : PyDateTime
  started : PyDateTime

/-- Data of a cancelled task. -/
structure CancelledTask where
  task : Task
  scheduled : PyDateTime
  started : Option PyDateTime
  cancelled : PyDateTime

/-- Data of a failed task. -/
structure FailedTask where
  task : Task
  scheduled : PyDateTime
  started : PyDateTime
  failed : PyDateTime
  error : String

/-- Data of a completed task. -/
structure CompletedTask where
  task : Task
  scheduled : PyDateTime
  started : PyDateTime
  completed : PyDateTime
  result : JSON

/-- Tasks data organized by status. -/
structure Tasks where
  pending : List (UUID × PendingTask)
  running : List (UUID × RunningTask)
  cancelled : List (UUID × CancelledTask)
  failed : List (UUID × FailedTask)
  completed : List (UUID × CompletedTask)

/-- Relationships between tasks. -/
structure Relationships where
  dependents : List (UUID × List UUID)
  dependencies : List (UUID × List UUID)

/-- State of the scheduler. -/
structure State where
  tasks : Tasks
  statuses : List (UUID × Status)
  relationships : Relationships

/-! Storage data model, from `models/data/storage.py`. -/

namespace Storage

/-- Stored form of a specification. -/
structure Specification where
  type : String
  parameters : List (String × JSON)

/-- Stored form of core task data. -/
structure Task where
  operation : Specification
  condition : Specification
  dependencies : List (String × String)

/-- Stored form of a pending task. -/
structure PendingTask where
  task : Task
  scheduled : String

/-- Stored form of a running task. -/
structure RunningTask where
  task : Task
  scheduled : String
  started : String

/-- Stored form of a cancelled task. -/
structure CancelledTask where
  task : Task
  scheduled : String
  started : Option String
  cancelled : String

/-- Stored form of a failed task. -/
structure FailedTask where
  task : Task
  scheduled : String
  started : String
  failed : String
  error : String

/-- Stored form of a completed task. -/
structure CompletedTask where
  task : Task
  scheduled : String
  started : String
  completed : String
  result : JSON

/-- Stored form of the per-status task maps. -/
structure Tasks where
  pending : List (String × PendingTask)
  running : List (String × RunningTask)
  cancelled : List (String × CancelledTask)
  failed : List (String × FailedTask)
  completed : List (String × CompletedTask)

/-- Stored form of the relationship maps: the sets appear as arrays. -/
structure Relationships where
  dependents : List (String × List String)
  dependencies : List (String × List String)

/-- Stored form of the scheduler state. -/
structure State where
  tasks : Tasks
  statuses : List (String × String)
  relationships : Relationships

end Storage

/-! Serialization, from `models/data/runtime.py`. -/

/-- Python `str(uuid)` on a canonical-form UUID. -/
def strOfUUID (u : UUID) : String := u

/-- Python `UUID(s)` on a canonical string. -/
def uuidOfStr (s : String) : UUID := s

/-- Python `datetime.isoformat` on a canonical timestamp. -/
def isoformat (d : PyDateTime) : String := d

/-- Python `datetime.fromisoformat` on a canonical ISO-8601 string. -/
def fromisoformat (s : String) : PyDateTime := s

/-- Serialize a specification. -/
def Specification.serialize (s : Specification) : Storage.Specification :=
  { type := s.type, parameters := s.parameters }

/-- Deserialize a specification. -/
def Specification.deserialize (d : Storage.Specification) : Specification :=
  { type := d.type, parameters := d.parameters }

/-- Serialize core task data. -/
def Task.serialize (t : Task) : Storage.Task :=
  { operation := t.operation.serialize,
    condition := t.condition.serialize,
    dependencies := t.dependencies.map (fun p => (p.1, strOfUUID p.2)) }

/-- Deserialize core task data. -/
def Task.deserialize (d : Storage.Task) : Task :=
  { operation := Specification.deserialize d.operation,
    condition := Specification.deserialize d.condition,
    dependencies := d.dependencies.map (fun p => (p.1, uuidOfStr p.2)) }

/-- Serialize a pending task. -/
def PendingTask.serialize (t : PendingTask) : Storage.PendingTask :=
  { task := t.task.serialize, scheduled := isoformat t.scheduled }

/-- Deserialize a pending task. -/
def PendingTask.deserialize (d : Storage.PendingTask) : PendingTask :=
  { task := Task.deserialize d.task, scheduled := fromisoformat d.scheduled }

/-- Serialize a running task. -/
def RunningTask.serialize (t : RunningTask) : Storage.RunningTask :=
  { task := t.task.serialize, scheduled := isoformat t.scheduled,
    started := isoformat t.started }

/-- Deserialize a running task. -/
def RunningTask.deserialize (d : Storage.RunningTask) : RunningTask :=
  { task := Task.deserialize d.task, scheduled := fromisoformat d.scheduled,
    started := fromisoformat d.started }

/-- Serialize a cancelled task. -/
def CancelledTask.serialize (t : CancelledTask) : Storage.CancelledTask :=
  { task := t.task.serialize, scheduled := isoformat t.scheduled,
    started := t.started.map isoformat, cancelled := isoformat t.cancelled }

/-- Deserialize a cancelled task. -/
def CancelledTask.deserialize (d : Storage.CancelledTask) : CancelledTask :=
  { task := Task.deserialize d.task, scheduled := fromisoformat d.scheduled,
    started := d.started.map fromisoformat, cancelled := fromisoformat d.cancelled }

/-- Serialize a failed task. -/
def FailedTask.serialize (t : FailedTask) : Storage.FailedTask :=
  { task := t.task.serialize, scheduled := isoformat t.scheduled,
    started := isoformat t.started, failed := isoformat t.failed, error := t.error }

/-- Deserialize a failed task. -/
def FailedTask.deserialize (d : Storage.FailedTask) : FailedTask :=
  { task := Task.deserialize d.task, scheduled := fromisoformat d.scheduled,
    started := fromisoformat d.started, failed := fromisoformat d.failed,
    error := d.error }

/-- Serialize a completed task. -/
def CompletedTask.serialize (t : CompletedTask) : Storage.CompletedTask :=
  { task := t.task.serialize, scheduled := isoformat t.scheduled,
    started := isoformat t.started, completed := isoformat t.completed,
    result := t.result }

/-- Deserialize a completed task. -/
def CompletedTask.deserialize (d : Storage.CompletedTask) : CompletedTask :=
  { task := Task.deserialize d.task, scheduled := fromisoformat d.scheduled,
    started := fromisoformat d.started, completed := fromisoformat d.completed,
    result := d.result }

/-- Serialize the per-status task maps. -/
def Tasks.serialize (t : Tasks) : Storage.Tasks :=
  { pending := t.pending.map (fun p => (strOfUUID p.1, p.2.serialize)),
    running := t.running.map (fun p => (strOfUUID p.1, p.2.serialize)),
    cancelled := t.cancelled.map (fun p => (strOfUUID p.1, p.2.serialize)),
    failed := t.failed.map (fun p => (strOfUUID p.1, p.2.serialize)),
    completed := t.completed.map (fun p => (strOfUUID p.1, p.2.serialize)) }

/-- Deserialize the per-status task maps. -/
def Tasks.deserialize (d : Storage.Tasks) : Tasks :=
  { pending := d.pending.map (fun p => (uuidOfStr p.1, PendingTask.deserialize p.2)),
    running := d.running.map (fun p => (uuidOfStr p.1, RunningTask.deserialize p.2)),
    cancelled := d.cancelled.map (fun p => (uuidOfStr p.1, CancelledTask.deserialize p.2)),
    failed := d.failed.map (fun p => (uuidOfStr p.1, FailedTask.deserialize p.2)),
    completed := d.completed.map (fun p => (uuidOfStr p.1, CompletedTask.deserialize p.2)) }

/-- Serialize the relationship maps: each set becomes an array whose elements
appear in the set's iteration order, which the language leaves unspecified
(hash-table order); `emit` stands for that enumeration of a set's elements. -/
def Relationships.serializeWith (emit : List UUID → List UUID) (r : Relationships) :
    Storage.Relationships :=
  { dependents := r.dependents.map (fun p => (strOfUUID p.1, (emit p.2).map strOfUUID)),
    dependencies := r.dependencies.map (fun p => (strOfUUID p.1, (emit p.2).map strOfUUID)) }

/-- Deserialize the relationship maps: each array is rebuilt as a set, so any
element order in the stored array is accepted. -/
def Relationships.deserialize (d : Storage.Relationships) : Relationships :=
  { dependents := d.dependents.map (fun p => (uuidOfStr p.1, scanon (p.2.map uuidOfStr))),
    dependencies := d.dependencies.map (fun p => (uuidOfStr p.1, scanon (p.2.map uuidOfStr))) }

/-- Serialize the statuses map. -/
def serializeStatuses (l : List (UUID × Status)) : List (String × String) :=
  l.map (fun p => (strOfUUID p.1, p.2.value))

/-- Deserialize the statuses map, failing on an invalid status value. -/
def deserializeStatuses : List (String × String) → Option (List (UUID × Status))
  | [] => some []
  | p :: rest =>
    match statusOfValue p.2, deserializeStatuses rest with
    | some v, some r => some ((uuidOfStr p.1, v) :: r)
    | _, _ => none

/-- Serialize the scheduler state, with `emit` the iteration order used for
the relationship sets. -/
def State.serializeWith (emit : List UUID → List UUID) (st : State) : Storage.State :=
  { tasks := st.tasks.serialize,
    statuses := serializeStatuses st.statuses,
    relationships := st.relationships.serializeWith emit }

/-- Deserialize the scheduler state; `none` models the error raised on an
invalid stored status value. -/
def State.deserialize (d : Storage.State) : Option State :=
  match deserializeStatuses d.statuses with
  | none => none
  | some sts =>
    some { tasks := Tasks.deserialize d.tasks,
           statuses := sts,
           relationships := Relationships.deserialize d.relationships }

/-- An admissible set-iteration order: it enumerates exactly the elements of
the set, each once. Any run of the interpreter iterates a set through some
such enumeration. -/
def EmitOk (emit : List UUID → List UUID) : Prop :=
  ∀ s : List UUID, (∀ a, a ∈ emit s ↔ a ∈ s) ∧ (emit s).Nodup

/-- A re-serialized relationship entry matches a stored one up to array order:
same key, and the arrays hold the same ids, the re-serialized one without
repetition. -/
def RelEntryMatches (p q : String × List String) : Prop :=
  p.1 = q.1 ∧ (∀ u, u ∈ p.2 ↔ u ∈ q.2) ∧ p.2.Nodup

/-- Roundtrip up to relationship-array order: tasks and statuses are restored
byte-for-byte; the relationship maps keep their keys in order, each array
re-emitted as some enumeration of the same set of ids. -/
def RoundtripUpToOrder (y x : Storage.State) : Prop :=
  y.tasks = x.tasks ∧ y.statuses = x.statuses ∧
  List.Forall₂ RelEntryMatches y.relationships.dependents x.relationships.dependents ∧
  List.Forall₂ RelEntryMatches y.relationships.dependencies x.relationships.dependencies

/-! Errors, from `errors.py`, plus the Python KeyError. -/

/-- Errors the embedded operations can raise. -/
inductive PyErr where
  | dependencyNotFoundError (id : UUID)
  | taskNotFoundError (id : UUID)
  | taskStatusError (id : UUID) (status : Status)
  | unsuccessfulDependencyError (id : UUID) (status : Status)
  | unexpectedTaskStatusError (id : UUID) (status : Status)
  | invalidOperationError (type : String)
  | invalidConditionError (type : String)
  | invalidCleaningStrategyError (type : String)
  | keyError (key : String)
deriving DecidableEq, Repr

/-! Transfer (public view) data model, from `models/transfer.py`. -/

namespace Transfer

/-- Public view of a specification. -/
structure Specification where
  type : String
  parameters : List (String × JSON)

/-- Public view of core task data, carrying the task id. -/
structure Task where
  id : UUID
  operation : Specification
  condition : Specification
  dependencies : List (String × UUID)

/-- Public view of a cancelled task. -/
structure CancelledTask where
  task : Task
  scheduled : PyDateTime
  started : Option PyDateTime
  cancelled : PyDateTime

/-- Public view of a failed task. -/
structure FailedTask where
  task : Task
  scheduled : PyDateTime
  started : PyDateTime
  failed : PyDateTime
  error : String

/-- Public view of a completed task. -/
structure CompletedTask where
  task : Task
  scheduled : PyDateTime
  started : PyDateTime
  completed : PyDateTime
  result : JSON

/-- Public view of a finished task. -/
inductive FinishedTask where
  | cancelledView (t : CancelledTask)
  | failedView (t : FailedTask)
  | completedView (t : CompletedTask)

end Transfer

/-! The Modifier, from `modifier.py`. Each operation returns the raised or
returned value together with the state held by the store after the call. -/

/-- The loop at the end of `Modifier.add_pending_task`: for each dependency,
ensure a dependents entry exists and add the new id to it. -/
def addDependents (taskId : UUID) : List UUID → List (UUID × List UUID) → List (UUID × List UUID)
  | [], depts => depts
  | d :: rest, depts =>
    addDependents taskId rest (dset depts d (sinsert taskId ((dget depts d).getD [])))

/-- `Modifier.add_pending_task`. -/
def addPendingTask (taskId : UUID) (task : Task) (scheduled : PyDateTime)
    (state : State) : Except PyErr PendingTask × State :=
  if (dvalues task.dependencies).any (fun d => !(dmem state.statuses d)) then
    (.error (.dependencyNotFoundError taskId), state)
  else
    let pendingTask : PendingTask := { task := task, scheduled := scheduled }
    let tasks1 := { state.tasks with pending := dset state.tasks.pending taskId pendingTask }
    let statuses1 := dset state.statuses taskId .pending
    let dependencies := scanon (dvalues task.dependencies)
    let rel0 := state.relationships
    let rel1 :=
      if dependencies.isEmpty then rel0
      else { rel0 with dependencies := dset rel0.dependencies taskId dependencies }
    let rel2 := { rel1 with dependents := addDependents taskId dependencies rel1.dependents }
    (.ok pendingTask, { tasks := tasks1, statuses := statuses1, relationships := rel2 })

/-- `Modifier.move_task_to_running`. -/
def moveTaskToRunning (taskId : UUID) (started : PyDateTime) (state : State) :
    Except PyErr RunningTask × State :=
  match dget state.statuses taskId with
  | none => (.error (.taskNotFoundError taskId), state)
  | some status =>
    if status ≠ Status.pending then (.error (.taskStatusError taskId status), state)
    else
      match dget state.tasks.pending taskId with
      | none => (.error (.taskNotFoundError taskId), state)
      | some task =>
        let rtask : RunningTask :=
          { task := task.task, scheduled := task.scheduled, started := started }
        let tasks1 :=
          { state.tasks with
            pending := dpop state.tasks.pending taskId,
            running := dset state.tasks.running taskId rtask }
        (.ok rtask, { state with tasks := tasks1, statuses := dset state.statuses taskId .running })

/-- `Modifier.move_task_to_cancelled`. -/
def moveTaskToCancelled (taskId : UUID) (cancelled : PyDateTime) (state : State) :
    Except PyErr CancelledTask × State :=
  match dget state.statuses taskId with
  | none => (.error (.taskNotFoundError taskId), state)
  | some Status.pending =>
    match dget state.tasks.pending taskId with
    | none => (.error (.taskNotFoundError taskId), state)
    | some task =>
      let ctask : CancelledTask :=
        { task := task.task, scheduled := task.scheduled, started := none,
          cancelled := cancelled }
      let tasks1 :=
        { state.tasks with
          pending := dpop state.tasks.pending taskId,
          cancelled := dset state.tasks.cancelled taskId ctask }
      (.ok ctask, { state with tasks := tasks1, statuses := dset state.statuses taskId .cancelled })
  | some Status.running =>
    match dget state.tasks.running taskId with
    | none => (.error (.taskNotFoundError taskId), state)
    | some task =>
      let ctask : CancelledTask :=
        { task := task.task, scheduled := task.scheduled, started := some task.started,
          cancelled := cancelled }
      let tasks1 :=
        { state.tasks with
          running := dpop state.tasks.running taskId,
          cancelled := dset state.tasks.cancelled taskId ctask }
      (.ok ctask, { state with tasks := tasks1, statuses := dset state.statuses taskId .cancelled })
  | some status => (.error (.taskStatusError taskId status), state)

/-- `Modifier.move_task_to_failed`. -/
def moveTaskToFailed (taskId : UUID) (failed : PyDateTime) (error : String)
    (state : State) : Except PyErr FailedTask × State :=
  match dget state.statuses taskId with
  | none => (.error (.taskNotFoundError taskId), state)
  | some status =>
    if status ≠ Status.running then (.error (.taskStatusError taskId status), state)
    else
      match dget state.tasks.running taskId with
      | none => (.error (.taskNotFoundError taskId), state)
      | some task =>
        let ftask : FailedTask :=
          { task := task.task, scheduled := task.scheduled, started := task.started,
            failed := failed, error := error }
        let tasks1 :=
          { state.tasks with
            running := dpop state.tasks.running taskId,
            failed := dset state.tasks.failed taskId ftask }
        (.ok ftask, { state with tasks := tasks1, statuses := dset state.statuses taskId .failed })

/-- `Modifier.move_task_to_completed`. -/
def moveTaskToCompleted (taskId : UUID) (completed : PyDateTime) (result : JSON)
    (state : State) : Except PyErr CompletedTask × State :=
  match dget state.statuses taskId with
  | none => (.error (.taskNotFoundError taskId), state)
  | some status =>
    if status ≠ Status.running then (.error (.taskStatusError taskId status), state)
    else
      match dget state.tasks.running taskId with
      | none => (.error (.taskNotFoundError taskId), state)
      | some task =>
        let ctask : CompletedTask :=
          { task := task.task, scheduled := task.scheduled, started := task.started,
            completed := completed, result := result }
        let tasks1 :=
          { state.tasks with
            running := dpop state.tasks.running taskId,
            completed := dset state.tasks.completed taskId ctask }
        (.ok ctask, { state with tasks := tasks1, statuses := dset state.statuses taskId .completed })

/-- `Modifier._build_finished_task`: the public view of a finished task; a
missing dict entry is the Python KeyError. -/
def buildFinishedTask (taskId : UUID) (state : State) : Except PyErr Transfer.FinishedTask :=
  match dget state.statuses taskId with
  | none => .error (.keyError taskId)
  | some Status.cancelled =>
    match dget state.tasks.cancelled taskId with
    | none => .error (.keyError taskId)
    | some task =>
      .ok (.cancelledView
        { task :=
            { id := taskId,
              operation := { type := task.task.operation.type, parameters := task.task.operation.parameters },
              condition := { type := task.task.condition.type, parameters := task.task.condition.parameters },
              dependencies := task.task.dependencies },
          scheduled := task.scheduled, started := task.started, cancelled := task.cancelled })
  | some Status.failed =>
    match dget state.tasks.failed taskId with
    | none => .error (.keyError taskId)
    | some task =>
      .ok (.failedView
        { task :=
            { id := taskId,
              operation := { type := task.task.operation.type, parameters := task.task.operation.parameters },
              condition := { type := task.task.condition.type, parameters := task.task.condition.parameters },
              dependencies := task.task.dependencies },
          scheduled := task.scheduled, started := task.started, failed := task.failed,
          error := task.error })
  | some Status.completed =>
    match dget state.tasks.completed taskId with
    | none => .error (.keyError taskId)
    | some task =>
      .ok (.completedView
        { task :=
            { id := taskId,
              operation := { type := task.task.operation.type, parameters := task.task.operation.parameters },
              condition := { type := task.task.condition.type, parameters := task.task.condition.parameters },
              dependencies := task.task.dependencies },
          scheduled := task.scheduled, started := task.started, completed := task.completed,
          result := task.result })
  | some status => .error (.taskStatusError taskId status)

/-- The loop over a removed task's dependencies inside
`Modifier.remove_stale_tasks`: remove each back-edge and drop a dependents
entry that becomes empty; Python `set.remove` raises KeyError when the member
is absent. -/
def dropDependents (taskId : UUID) : List UUID → List (UUID × List UUID) →
    Except PyErr (List (UUID × List UUID))
  | [], depts => .ok depts
  | d :: rest, depts =>
    match dget depts d with
    | none => dropDependents taskId rest depts
    | some s =>
      if taskId ∈ s then
        dropDependents taskId rest
          (if (sremove taskId s).isEmpty then dpop depts d else dset depts d (sremove taskId s))
      else .error (.keyError taskId)

/-- The removal block inside `Modifier.remove_stale_tasks`: pop the record from
its status map, drop the status, clear the dependencies entry and the matching
back-edges. -/
def removeTaskEntry (taskId : UUID) (state : State) : Except PyErr State :=
  match dget state.statuses taskId with
  | none => .error (.keyError taskId)
  | some status =>
    let popped : Except PyErr Tasks :=
      match status with
      | .cancelled =>
        if dmem state.tasks.cancelled taskId then
          .ok { state.tasks with cancelled := dpop state.tasks.cancelled taskId }
        else .error (.keyError taskId)
      | .failed =>
        if dmem state.tasks.failed taskId then
          .ok { state.tasks with failed := dpop state.tasks.failed taskId }
        else .error (.keyError taskId)
      | .completed =>
        if dmem state.tasks.completed taskId then
          .ok { state.tasks with completed := dpop state.tasks.completed taskId }
        else .error (.keyError taskId)
      | _ => .ok state.tasks
    match popped with
    | .error e => .error e
    | .ok tasks1 =>
      match dropDependents taskId ((dget state.relationships.dependencies taskId).getD [])
          state.relationships.dependents with
      | .error e => .error e
      | .ok depts1 =>
        .ok { tasks := tasks1,
              statuses := dpop state.statuses taskId,
              relationships :=
                { dependents := depts1,
                  dependencies := dpop state.relationships.dependencies taskId } }

/-- Observable events inside one run of `remove_stale_tasks`: predicate
invocations, and removals recording the dependents map at the moment of the
removal. -/
inductive ReapEvent where
  | predicateCall (id : UUID)
  | removal (id : UUID) (dependents : List (UUID × List UUID))

/-- One pass of the scan in `Modifier.remove_stale_tasks`, over a snapshot of
the candidate pool. -/
def reapPass (pred : Transfer.FinishedTask → Bool) :
    List UUID → State → List UUID → List UUID → List ReapEvent →
    Except PyErr (State × List UUID × List UUID × List ReapEvent)
  | [], st, pool, removed, trace => .ok (st, pool, removed, trace)
  | id :: rest, st, pool, removed, trace =>
    if dmem st.relationships.dependents id then
      reapPass pred rest st pool removed trace
    else
      match buildFinishedTask id st with
      | .error e => .error e
      | .ok view =>
        if !(pred view) then
          reapPass pred rest st pool removed (trace ++ [.predicateCall id])
        else
          match removeTaskEntry id st with
          | .error e => .error e
          | .ok st2 =>
            reapPass pred rest st2 (pool.erase id) (removed ++ [id])
              (trace ++ [.predicateCall id, .removal id st.relationships.dependents])

/-- The fixed-point loop of `Modifier.remove_stale_tasks`: repeat the scan
until a pass removes nothing. -/
def reapLoop (pred : Transfer.FinishedTask → Bool) (st : State) (pool removed : List UUID)
    (trace : List ReapEvent) : Except PyErr (State × List UUID × List ReapEvent) :=
  match h : reapPass pred pool st pool removed trace with
  | .error e => .error e
  | .ok (st2, pool2, removed2, trace2) =>
    if hlen : pool2.length = pool.length then .ok (st2, removed2, trace2)
    else reapLoop pred st2 pool2 removed2 trace2
termination_by pool.length
decreasing_by
  have hle : ∀ (snapshot : List UUID) (st3 : State) (pool3 removed3 : List UUID)
      (trace3 : List ReapEvent) (st4 : State) (pool4 removed4 : List UUID)
      (trace4 : List ReapEvent),
      reapPass pred snapshot st3 pool3 removed3 trace3 = .ok (st4, pool4, removed4, trace4) →
      pool4.length ≤ pool3.length := by
    intro snapshot
    induction snapshot with
    | nil =>
      intro st3 pool3 removed3 trace3 st4 pool4 removed4 trace4 hp
      simp only [reapPass] at hp
      cases hp
      exact Nat.le_refl _
    | cons id rest ih =>
      intro st3 pool3 removed3 trace3 st4 pool4 removed4 trace4 hp
      simp only [reapPass] at hp
      split at hp
      · exact ih st3 pool3 removed3 trace3 st4 pool4 removed4 trace4 hp
      · split at hp
        · exact absurd hp (by simp)
        · split at hp
          · exact ih st3 pool3 removed3 _ st4 pool4 removed4 trace4 hp
          · split at hp
            · exact absurd hp (by simp)
            · have h2 := ih _ _ _ _ st4 pool4 removed4 trace4 hp
              exact Nat.le_trans h2 (List.Sublist.length_le (List.erase_sublist id pool3))
  exact Nat.lt_of_le_of_ne (hle pool st pool removed trace _ _ _ _ h) hlen

/-- `Modifier.remove_stale_tasks` with its event trace; returns the final
state, the removed ids in removal order, and the events. -/
def removeStaleTasksTraced (pred : Transfer.FinishedTask → Bool) (state : State) :
    Except PyErr (State × List UUID × List ReapEvent) :=
  reapLoop pred state (dkeys (state.statuses.filter (fun p => p.2.isFinished))) [] []

/-- `Modifier.remove_stale_tasks`; on an exception the stored state is the
input state. -/
def removeStaleTasks (pred : Transfer.FinishedTask → Bool) (state : State) :
    Except PyErr (List UUID) × State :=
  match removeStaleTasksTraced pred state with
  | .error e => (.error e, state)
  | .ok (st2, removed, _) => (.ok removed, st2)

/-! The Cleaner, from `cleaner.py`. The effect trace records the acquisition
and release of the exclusive lock and every cleaning-strategy invocation. -/

/-- Lock and strategy events observable during `Cleaner.clean`. -/
inductive CleanEvent where
  | acquire
  | strategyCall (id : UUID)
  | release
deriving DecidableEq, Repr

/-- A predicate invocation inside the reaper is a strategy call of the
cleaner; removals are not lock or strategy events. -/
def reapEventToCleanEvent : ReapEvent → Option CleanEvent
  | .predicateCall id => some (.strategyCall id)
  | .removal _ _ => none

/-- Request to clean tasks. -/
structure CleanRequest where
  strategy : Transfer.Specification

/-- `Cleaner.clean`: build the strategy from its factory, then run the reaper
while holding the exclusive lock. Returns the removed ids, the new state and
the effect trace of lock and strategy events. -/
def clean (strategies : String → Option (Transfer.FinishedTask → List (String × JSON) → Bool))
    (request : CleanRequest) (state : State) :
    Except PyErr (List UUID × State × List CleanEvent) :=
  match strategies request.strategy.type with
  | none => .error (.invalidCleaningStrategyError request.strategy.type)
  | some strategy =>
    match removeStaleTasksTraced (fun task => strategy task request.strategy.parameters) state with
    | .error e => .error e
    | .ok (st2, removed, trace) =>
      .ok (removed, st2, .acquire :: (trace.filterMap reapEventToCleanEvent ++ [.release]))

/-! The Canceller, from `canceller.py`. The event cache is the list of topics
present in it; the last component lists the topics notified, in order. -/

/-- The topic of the per-task cancellation event. -/
def cancelledTopic (id : UUID) : String := "cancelled:" ++ id

/-- The topic of the per-task finished event. -/
def finishedTopic (id : UUID) : String := "finished:" ++ id

/-- `EventCache.get`: return the event for a topic, creating it if missing. -/
def cacheGet (cache : List String) (topic : String) : List String :=
  if topic ∈ cache then cache else cache ++ [topic]

/-- `Canceller.cancel`: under the lock, move the task to cancelled, then
notify the cancelled and the finished events. Returns the raised or returned
value, the stored state, the event cache and the notified topics after the
call. -/
def cancel (requestId : UUID) (now : PyDateTime) (state : State) (cache : List String) :
    Except PyErr Transfer.CancelledTask × State × List String × List String :=
  match moveTaskToCancelled requestId now state with
  | (.error e, st2) => (.error e, st2, cache, [])
  | (.ok task, st2) =>
    let cache1 := cacheGet cache (cancelledTopic requestId)
    let cache2 := cacheGet cache1 (finishedTopic requestId)
    let view : Transfer.CancelledTask :=
      { task :=
          { id := requestId,
            operation := { type := task.task.operation.type, parameters := task.task.operation.parameters },
            condition := { type := task.task.condition.type, parameters := task.task.condition.parameters },
            dependencies := task.task.dependencies },
        scheduled := task.scheduled, started := task.started, cancelled := task.cancelled }
    (.ok view, st2, cache2, [cancelledTopic requestId, finishedTopic requestId])

/-! The Runner, from `runner.py` and `dependencies.py`. -/

/-- Result of `ResultResolver.resolve`, from `dependencies.py`. -/
inductive TaskResult where
  | cancelledResult
  | failedResult (error : String)
  | completedResult (result : JSON)

/-- `Runner._resolve_dependencies`: resolve each declared dependency, failing
on an unknown or unsuccessful one. -/
def resolveDependencies (resolve : UUID → Option TaskResult) :
    List (String × UUID) → Except PyErr (List (String × JSON))
  | [] => .ok []
  | p :: rest =>
    match resolve p.2 with
    | none => .error (.dependencyNotFoundError p.2)
    | some TaskResult.cancelledResult => .error (.unsuccessfulDependencyError p.2 .cancelled)
    | some (TaskResult.failedResult _) => .error (.unsuccessfulDependencyError p.2 .failed)
    | some (TaskResult.completedResult r) =>
      match resolveDependencies resolve rest with
      | .error e => .error e
      | .ok ds => .ok ((p.1, r) :: ds)

/-- `Runner._get_task`. -/
def getTask (taskId : UUID) (state : State) : Except PyErr Task :=
  match dget state.statuses taskId with
  | none => .error (.taskNotFoundError taskId)
  | some status =>
    if status ≠ Status.pending then .error (.unexpectedTaskStatusError taskId status)
    else
      match dget state.tasks.pending taskId with
      | none => .error (.taskNotFoundError taskId)
      | some task => .ok task.task

/-- State transitions the driver commits through the modifier. -/
inductive Commit where
  | running
  | failed (error : String)
  | completed (result : JSON)

/-- The environment one driver run interacts with: the state it reads, the
operation and condition factories, the resolver, the outcomes of the condition
wait and of the operation run, and the current time. -/
structure RunEnv where
  state : State
  operations : String → Bool
  conditions : String → Bool
  resolve : UUID → Option TaskResult
  conditionWait : Except String Unit
  operationRun : Except String JSON

/-- Observable outcome of one `Runner._run_task` call: the stored state after
the run, the committed transitions in order, whether the finished event was
notified, whether the finished event was deleted from the cache, and an
exception escaping `_run_task`, if any. -/
structure RunTrace where
  finalState : State
  commits : List Commit
  finishedNotified : Bool
  finishedDeleted : Bool
  raised : Option PyErr

/-- `Runner._set_task_as_failed` within `_run_task`: commit the failed record
through the modifier, then notify the finished event; an exception from the
modifier skips the notification and escapes. -/
def setTaskAsFailedTrace (taskId : UUID) (err : String) (now : PyDateTime)
    (st : State) (done : List Commit) : RunTrace :=
  match moveTaskToFailed taskId now err st with
  | (.error e, st2) =>
    { finalState := st2, commits := done, finishedNotified := false,
      finishedDeleted := false, raised := some e }
  | (.ok _, st2) =>
    { finalState := st2, commits := done ++ [.failed err], finishedNotified := true,
      finishedDeleted := false, raised := none }

/-- `Runner._run_task` as a function of its environment: the pipeline from
`_get_task` through dependency resolution, the condition, the operation and
the terminal commit. Only `UnsuccessfulDependencyError` is caught around
dependency resolution; `finishedDeleted` reflects the finally block of
`_manage_finished_event`. -/
def runTask (env : RunEnv) (taskId : UUID) (now : PyDateTime) : RunTrace :=
  match getTask taskId env.state with
  | .error e =>
    { finalState := env.state, commits := [], finishedNotified := false,
      finishedDeleted := false, raised := some e }
  | .ok task =>
    let res : RunTrace :=
      if !(env.operations task.operation.type) then
        setTaskAsFailedTrace taskId ("Operation " ++ task.operation.type ++ " is not supported.")
          now env.state []
      else if !(env.conditions task.condition.type) then
        setTaskAsFailedTrace taskId ("Condition " ++ task.condition.type ++ " is not supported.")
          now env.state []
      else
        match resolveDependencies env.resolve task.dependencies with
        | .error (.unsuccessfulDependencyError depId depStatus) =>
          setTaskAsFailedTrace taskId
            ("Dependency " ++ depId ++ " finished with status " ++ depStatus.value ++ ".")
            now env.state []
        | .error e =>
          { finalState := env.state, commits := [], finishedNotified := false,
            finishedDeleted := false, raised := some e }
        | .ok _ =>
          match env.conditionWait with
          | .error msg =>
            setTaskAsFailedTrace taskId
              ("Condition " ++ task.condition.type ++ " failed: " ++ msg ++ ".")
              now env.state []
          | .ok _ =>
            match moveTaskToRunning taskId now env.state with
            | (.error e, st2) =>
              { finalState := st2, commits := [], finishedNotified := false,
                finishedDeleted := false, raised := some e }
            | (.ok _, st2) =>
              match env.operationRun with
              | .error msg =>
                setTaskAsFailedTrace taskId
                  ("Operation " ++ task.operation.type ++ " failed: " ++ msg ++ ".")
                  now st2 [.running]
              | .ok result =>
                match moveTaskToCompleted taskId now result st2 with
                | (.error e, st3) =>
                  { finalState := st3, commits := [.running], finishedNotified := false,
                    finishedDeleted := false, raised := some e }
                | (.ok _, st3) =>
                  { finalState := st3, commits := [.running, .completed result],
                    finishedNotified := true, finishedDeleted := false, raised := none }
    { res with finishedDeleted := true }

/-! Invariants and observation predicates used to state the claims. -/

/-- The set a relationship map associates to an id: its entry, or the empty
set when the id has no entry. -/
def relGet (r : List (UUID × List UUID)) (k : UUID) : List UUID :=
  (dget r k).getD []

/-- The mirror invariant: an id is among the dependencies of another exactly
when the second is among its dependents, and every edge joins ids known to
`statuses`. -/
def Mirror (st : State) : Prop :=
  ∀ a b : UUID,
    (b ∈ relGet st.relationships.dependencies a ↔ a ∈ relGet st.relationships.dependents b) ∧
    (b ∈ relGet st.relationships.dependencies a →
      dmem st.statuses a = true ∧ dmem st.statuses b = true)

/-- Every id a relationship map mentions, as a key or inside a set. -/
def relIds (r : List (UUID × List UUID)) : List UUID :=
  dkeys r ++ (r.map Prod.snd).flatten

/-- The ids on which the mirror invariant is not vacuous. -/
def mirrorSupport (st : State) : List UUID :=
  relIds st.relationships.dependencies ++ relIds st.relationships.dependents

/-- Executable check of the mirror invariant over its support. -/
def mirrorCheck (st : State) : Bool :=
  (mirrorSupport st).all (fun a => (mirrorSupport st).all (fun b =>
    (decide (b ∈ relGet st.relationships.dependencies a)
        == decide (a ∈ relGet st.relationships.dependents b)) &&
    (!(decide (b ∈ relGet st.relationships.dependencies a))
        || (dmem st.statuses a && dmem st.statuses b))))

/-- Whether the task map matching the status of an entry contains its id. -/
def statusHasRecord (st : State) (p : UUID × Status) : Bool :=
  match p.2 with
  | Status.pending => dmem st.tasks.pending p.1
  | Status.running => dmem st.tasks.running p.1
  | Status.cancelled => dmem st.tasks.cancelled p.1
  | Status.failed => dmem st.tasks.failed p.1
  | Status.completed => dmem st.tasks.completed p.1

/-- Invariant 1 of the spec data model: every id with a status has a record of
the matching kind. -/
def StatusesConsistent (st : State) : Prop :=
  ∀ p ∈ st.statuses, statusHasRecord st p = true

instance decStatusesConsistent (st : State) : Decidable (StatusesConsistent st) :=
  inferInstanceAs (Decidable (∀ p ∈ st.statuses, statusHasRecord st p = true))

/-- Both relationship dicts have duplicate-free keys; every association list
representing a Python dict satisfies this. -/
def RelKeysNodup (st : State) : Prop :=
  (dkeys st.relationships.dependents).Nodup ∧ (dkeys st.relationships.dependencies).Nodup

/-- The statuses dict has duplicate-free keys. -/
def StatusKeysNodup (st : State) : Prop :=
  (dkeys st.statuses).Nodup

/-- The edge relation of the dependency graph: the first task depends on the
second. -/
def DepEdge (st : State) (a b : UUID) : Prop :=
  b ∈ relGet st.relationships.dependencies a

/-- Acyclicity of the dependency graph: no id reaches itself through a
non-empty chain of dependency edges. -/
def AcyclicDeps (st : State) : Prop :=
  ∀ a : UUID, ¬ Relation.TransGen (DepEdge st) a a

/-- Every dependency edge joins ids known to `statuses` (the edge part of the
mirror invariant). -/
def EdgesInStatuses (st : State) : Prop :=
  ∀ a b : UUID, DepEdge st a b → dmem st.statuses a = true ∧ dmem st.statuses b = true

/-- One modifier operation, used to quantify over all the write paths. -/
inductive ModOp where
  | addPending (taskId : UUID) (task : Task) (scheduled : PyDateTime)
  | toRunning (taskId : UUID) (started : PyDateTime)
  | toCancelled (taskId : UUID) (cancelled : PyDateTime)
  | toFailed (taskId : UUID) (failed : PyDateTime) (error : String)
  | toCompleted (taskId : UUID) (completed : PyDateTime) (result : JSON)
  | removeStale (pred : Transfer.FinishedTask → Bool)

/-- The state a modifier operation commits, `none` when it raises (leaving the
store unchanged). -/
def ModOp.run : ModOp → State → Option State
  | .addPending taskId task scheduled, st =>
    match addPendingTask taskId task scheduled st with
    | (.ok _, st2) => some st2
    | (.error _, _) => none
  | .toRunning taskId started, st =>
    match moveTaskToRunning taskId started st with
    | (.ok _, st2) => some st2
    | (.error _, _) => none
  | .toCancelled taskId cancelled, st =>
    match moveTaskToCancelled taskId cancelled st with
    | (.ok _, st2) => some st2
    | (.error _, _) => none
  | .toFailed taskId failed error, st =>
    match moveTaskToFailed taskId failed error st with
    | (.ok _, st2) => some st2
    | (.error _, _) => none
  | .toCompleted taskId completed result, st =>
    match moveTaskToCompleted taskId completed result st with
    | (.ok _, st2) => some st2
    | (.error _, _) => none
  | .removeStale pred, st =>
    match removeStaleTasks pred st with
    | (.ok _, st2) => some st2
    | (.error _, _) => none

/-- An operation adds no task whose id is already known: true of every
operation but `add_pending`, whose id must be fresh. -/
def ModOp.freshFor : ModOp → State → Prop
  | .addPending taskId _ _, st => dmem st.statuses taskId = false
  | _, _ => True

/-- The property C8 claims of the effect trace of `Cleaner.clean`: no strategy
invocation lies between the acquisition of the exclusive lock and the matching
release. -/
def CallsOutsideLock (tr : List CleanEvent) : Prop :=
  ∀ i j k : Fin tr.length, tr.get i = CleanEvent.acquire → tr.get j = CleanEvent.release →
    i < k → k < j → ∀ id, tr.get k ≠ CleanEvent.strategyCall id

/-- Loop invariant of `remove_stale_tasks` relating the current scan state to
the initial state: the statuses keys stay duplicate-free, the pool is exactly
the set of currently finished ids, and the removed ids are exactly those whose
status entry has been dropped since the start, all of them finished
initially. -/
def ReapInv (st0 st : State) (pool removed : List UUID) : Prop :=
  (dkeys st.statuses).Nodup ∧
  pool.Nodup ∧
  (∀ id, id ∈ pool ↔ ∃ s, dget st.statuses id = some s ∧ s.isFinished = true) ∧
  (∀ id ∈ removed, dget st.statuses id = none) ∧
  (∀ id, id ∉ removed → dget st.statuses id = dget st0.statuses id) ∧
  (∀ id ∈ removed, ∃ s, dget st0.statuses id = some s ∧ s.isFinished = true)

/-! Concrete instances used by the witnesses and counterexamples. -/

/-- A dependency-free task. -/
def exTask : Task :=
  { operation := { type := "op", parameters := [] },
    condition := { type := "cond", parameters := [] },
    dependencies := [] }

/-- A task declaring one dependency, named `n`, on id `a`. -/
def exTaskDepA : Task :=
  { operation := { type := "op", parameters := [] },
    condition := { type := "cond", parameters := [] },
    dependencies := [("n", "a")] }

/-- Empty task maps. -/
def exNoTasks : Tasks :=
  { pending := [], running := [], cancelled := [], failed := [], completed := [] }

/-- Empty relationship maps. -/
def exNoRels : Relationships := { dependents := [], dependencies := [] }

/-- A completed record for concrete states. -/
def exCompletedRec : CompletedTask :=
  { task := exTask, scheduled := "t0", started := "t1", completed := "t2",
    result := JSON.null }

/-- A state holding one completed task `a` and nothing else. -/
def exStCompleted : State :=
  { tasks := { exNoTasks with completed := [("a", exCompletedRec)] },
    statuses := [("a", Status.completed)],
    relationships := exNoRels }

/-- The empty state. -/
def exStEmpty : State :=
  { tasks := exNoTasks, statuses := [], relationships := exNoRels }

/-- A state holding one pending task `b` that declares a dependency on `a`. -/
def exStPendingDep : State :=
  { tasks := { exNoTasks with pending := [("b", { task := exTaskDepA, scheduled := "t0" })] },
    statuses := [("b", Status.pending)],
    relationships := exNoRels }

/-- A driver environment whose resolver knows no task at all. -/
def exRunEnv : RunEnv :=
  { state := exStPendingDep,
    operations := fun _ => true,
    conditions := fun _ => true,
    resolve := fun _ => none,
    conditionWait := .ok (),
    operationRun := .ok JSON.null }

/-- A cleaning strategy accepting every task. -/
def exAlwaysStrategy : Transfer.FinishedTask → List (String × JSON) → Bool :=
  fun _ _ => true

/-- A strategy factory resolving every type to the always-true strategy. -/
def exStrategies : String → Option (Transfer.FinishedTask → List (String × JSON) → Bool) :=
  fun _ => some exAlwaysStrategy

/-- A clean request with the always-true strategy. -/
def exCleanRequest : CleanRequest :=
  { strategy := { type := "always", parameters := [] } }

/-- A task declaring one dependency, named `n`, on id `x`. -/
def exTaskDepX : Task :=
  { operation := { type := "op", parameters := [] },
    condition := { type := "cond", parameters := [] },
    dependencies := [("n", "x")] }

/-- A task declaring one dependency, named `m`, on id `y`. -/
def exTaskDepY : Task :=
  { operation := { type := "op", parameters := [] },
    condition := { type := "cond", parameters := [] },
    dependencies := [("m", "y")] }

/-- A well-formed state where pending task `a` depends on completed task `x`,
and `y` is another completed task; the mirror invariant holds. -/
def exStMirror : State :=
  { tasks :=
      { pending := [("a", { task := exTaskDepX, scheduled := "t0" })],
        running := [], cancelled := [], failed := [],
        completed := [("x", exCompletedRec), ("y", exCompletedRec)] },
    statuses := [("x", Status.completed), ("y", Status.completed), ("a", Status.pending)],
    relationships := { dependents := [("x", ["a"])], dependencies := [("a", ["x"])] } }

/-- The state `add_pending_task` commits when re-adding id `a` to `exStMirror`
with a dependency on `y`: the forward edge to `x` is overwritten but the stale
back-edge in the dependents of `x` survives. -/
def exStMirror2 : State :=
  { tasks :=
      { pending := [("a", { task := exTaskDepY, scheduled := "t4" })],
        running := [], cancelled := [], failed := [],
        completed := [("x", exCompletedRec), ("y", exCompletedRec)] },
    statuses := [("x", Status.completed), ("y", Status.completed), ("a", Status.pending)],
    relationships :=
      { dependents := [("x", ["a"]), ("y", ["a"])], dependencies := [("a", ["y"])] } }

/-- The state committed by moving task `a` of `exStPendRun` to running. -/
def exStPendRun2 : State :=
  { tasks :=
      { pending := [],
        running := [("b", { task := exTask, scheduled := "t0", started := "t1" }),
                    ("a", { task := exTask, scheduled := "t0", started := "t9" })],
        cancelled := [], failed := [], completed := [] },
    statuses := [("a", Status.running), ("b", Status.running)],
    relationships := exNoRels }

/-- Stored form of a pending task depending on `x` and `y`. -/
def exStoragePendingB : Storage.PendingTask :=
  { task :=
      { operation := { type := "op", parameters := [] },
        condition := { type := "cond", parameters := [] },
        dependencies := [("p", "x"), ("q", "y")] },
    scheduled := "t0" }

/-- Stored form of a completed record. -/
def exStorageCompletedRec : Storage.CompletedTask :=
  { task :=
      { operation := { type := "op", parameters := [] },
        condition := { type := "cond", parameters := [] },
        dependencies := [] },
    scheduled := "t0", started := "t1", completed := "t2", result := JSON.null }

/-- A valid persisted state whose dependencies array for `b` is stored in the
order `y`, `x`. -/
def exStorageBad : Storage.State :=
  { tasks :=
      { pending := [("b", exStoragePendingB)], running := [], cancelled := [], failed := [],
        completed := [("x", exStorageCompletedRec), ("y", exStorageCompletedRec)] },
    statuses := [("x", "completed"), ("y", "completed"), ("b", "pending")],
    relationships :=
      { dependents := [("x", ["b"]), ("y", ["b"])], dependencies := [("b", ["y", "x"])] } }

/-- The same persisted state with the dependencies array in the opposite
order. -/
def exStorageSwapped : Storage.State :=
  { tasks :=
      { pending := [("b", exStoragePendingB)], running := [], cancelled := [], failed := [],
        completed := [("x", exStorageCompletedRec), ("y", exStorageCompletedRec)] },
    statuses := [("x", "completed"), ("y", "completed"), ("b", "pending")],
    relationships :=
      { dependents := [("x", ["b"]), ("y", ["b"])], dependencies := [("b", ["x", "y"])] } }

/-- The runtime state that both `exStorageBad` and `exStorageSwapped`
deserialize to: the array is rebuilt as a set either way. -/
def exRtShared : State :=
  { tasks :=
      { pending := [("b",
          { task :=
              { operation := { type := "op", parameters := [] },
                condition := { type := "cond", parameters := [] },
                dependencies := [("p", "x"), ("q", "y")] },
            scheduled := "t0" })],
        running := [], cancelled := [], failed := [],
        completed := [("x", exCompletedRec), ("y", exCompletedRec)] },
    statuses := [("x", Status.completed), ("y", Status.completed), ("b", Status.pending)],
    relationships :=
      { dependents := [("x", ["b"]), ("y", ["b"])], dependencies := [("b", ["x", "y"])] } }

/-- A state holding a pending task `a` and a running task `b`. -/
def exStPendRun : State :=
  { tasks :=
      { exNoTasks with
        pending := [("a", { task := exTask, scheduled := "t0" })],
        running := [("b", { task := exTask, scheduled := "t0", started := "t1" })] },
    statuses := [("a", Status.pending), ("b", Status.running)],
    relationships := exNoRels }

/-! Helper lemmas about the dict and set representations. -/

theorem dget_some_mem {α : Type} {d : List (String × α)} {k : String} {v : α}
    (h : dget d k = some v) : (k, v) ∈ d := by
  induction d with
  | nil => simp [dget] at h
  | cons p rest ih =>
    simp only [dget] at h
    by_cases hk : p.1 = k
    · subst hk
      rw [if_pos rfl] at h
      injection h with h2
      subst h2
      exact List.mem_cons_self _ _
    · rw [if_neg hk] at h
      exact List.mem_cons_of_mem _ (ih h)

theorem dget_eq_none {α : Type} {d : List (String × α)} {k : String}
    (h : k ∉ dkeys d) : dget d k = none := by
  induction d with
  | nil => rfl
  | cons p rest ih =>
    simp only [dkeys, List.map_cons, List.mem_cons, not_or] at h
    simp only [dget]
    rw [if_neg (fun hh => h.1 hh.symm)]
    exact ih h.2

theorem dget_isSome_of_mem_dkeys {α : Type} {d : List (String × α)} {k : String}
    (h : k ∈ dkeys d) : (dget d k).isSome = true := by
  induction d with
  | nil => simp [dkeys] at h
  | cons p rest ih =>
    simp only [dget]
    by_cases hk : p.1 = k
    · rw [if_pos hk]
      rfl
    · rw [if_neg hk]
      apply ih
      simp only [dkeys, List.map_cons, List.mem_cons] at h
      rcases h with h1 | h2
      · exact absurd h1.symm hk
      · exact h2

theorem dmem_iff_mem_dkeys {α : Type} (d : List (String × α)) (k : String) :
    dmem d k = true ↔ k ∈ dkeys d := by
  constructor
  · intro h
    rw [dmem, Option.isSome_iff_exists] at h
    obtain ⟨v, hv⟩ := h
    exact List.mem_map_of_mem Prod.fst (dget_some_mem hv)
  · intro h
    exact dget_isSome_of_mem_dkeys h

theorem dget_dset_self {α : Type} (d : List (String × α)) (k : String) (v : α) :
    dget (dset d k v) k = some v := by
  induction d with
  | nil => simp [dset, dget]
  | cons p rest ih =>
    simp only [dset]
    by_cases hk : p.1 = k
    · rw [if_pos hk]
      simp [dget]
    · rw [if_neg hk]
      simp only [dget]
      rw [if_neg hk]
      exact ih

theorem dget_dset_ne {α : Type} (d : List (String × α)) {k j : String} (v : α)
    (h : k ≠ j) : dget (dset d k v) j = dget d j := by
  induction d with
  | nil => simp [dset, dget, h]
  | cons p rest ih =>
    simp only [dset]
    by_cases hk : p.1 = k
    · rw [if_pos hk]
      simp only [dget]
      rw [if_neg h, if_neg (fun hh => h (hk ▸ hh))]
    · rw [if_neg hk]
      simp only [dget]
      by_cases hj : p.1 = j
      · rw [if_pos hj, if_pos hj]
      · rw [if_neg hj, if_neg hj]
        exact ih

theorem mem_dkeys_dset {α : Type} (d : List (String × α)) (k j : String) (v : α) :
    j ∈ dkeys (dset d k v) ↔ j = k ∨ j ∈ dkeys d := by
  induction d with
  | nil => simp [dset, dkeys]
  | cons p rest ih =>
    simp only [dset]
    by_cases hk : p.1 = k
    · rw [if_pos hk]
      simp only [dkeys, List.map_cons, List.mem_cons]
      rw [← hk]
      tauto
    · rw [if_neg hk]
      simp only [dkeys, List.map_cons, List.mem_cons] at ih ⊢
      rw [ih]
      tauto

theorem nodup_dkeys_dset {α : Type} {d : List (String × α)} (k : String) (v : α)
    (h : (dkeys d).Nodup) : (dkeys (dset d k v)).Nodup := by
  induction d with
  | nil => simp [dset, dkeys]
  | cons p rest ih =>
    simp only [dkeys, List.map_cons, List.nodup_cons] at h
    simp only [dset]
    by_cases hk : p.1 = k
    · rw [if_pos hk]
      simp only [dkeys, List.map_cons, List.nodup_cons]
      rw [← hk]
      exact h
    · rw [if_neg hk]
      simp only [dkeys, List.map_cons, List.nodup_cons]
      constructor
      · intro hmem
        rcases (mem_dkeys_dset rest k p.1 v).mp hmem with h1 | h2
        · exact hk h1
        · exact h.1 h2
      · exact ih h.2

theorem dpop_sublist {α : Type} (d : List (String × α)) (k : String) :
    (dpop d k).Sublist d := by
  induction d with
  | nil => exact List.Sublist.refl _
  | cons p rest ih =>
    simp only [dpop]
    by_cases hk : p.1 = k
    · rw [if_pos hk]
      exact List.sublist_cons_self _ _
    · rw [if_neg hk]
      exact List.Sublist.cons₂ _ ih

theorem nodup_dkeys_dpop {α : Type} {d : List (String × α)} (k : String)
    (h : (dkeys d).Nodup) : (dkeys (dpop d k)).Nodup :=
  h.sublist (List.Sublist.map Prod.fst (dpop_sublist d k))

theorem dget_dpop_self {α : Type} {d : List (String × α)} (k : String)
    (h : (dkeys d).Nodup) : dget (dpop d k) k = none := by
  induction d with
  | nil => rfl
  | cons p rest ih =>
    simp only [dkeys, List.map_cons, List.nodup_cons] at h
    simp only [dpop]
    by_cases hk : p.1 = k
    · rw [if_pos hk]
      exact dget_eq_none (hk ▸ h.1)
    · rw [if_neg hk]
      simp only [dget]
      rw [if_neg hk]
      exact ih h.2

theorem dget_dpop_ne {α : Type} (d : List (String × α)) {k j : String}
    (h : k ≠ j) : dget (dpop d k) j = dget d j := by
  induction d with
  | nil => rfl
  | cons p rest ih =>
    simp only [dpop]
    by_cases hk : p.1 = k
    · rw [if_pos hk]
      simp only [dget]
      rw [if_neg (fun hh => h (hk ▸ hh))]
    · rw [if_neg hk]
      simp only [dget]
      by_cases hj : p.1 = j
      · rw [if_pos hj, if_pos hj]
      · rw [if_neg hj, if_neg hj]
        exact ih

theorem mem_sinsert (x y : UUID) (l : List UUID) :
    x ∈ sinsert y l ↔ x = y ∨ x ∈ l := by
  induction l with
  | nil => simp [sinsert]
  | cons z zs ih =>
    simp only [sinsert]
    by_cases hz : y = z
    · rw [if_pos hz]
      subst hz
      simp only [List.mem_cons]
      tauto
    · rw [if_neg hz]
      by_cases hlt : strLtb y z = true
      · rw [if_pos hlt]
        simp only [List.mem_cons]
      · rw [if_neg hlt]
        simp only [List.mem_cons]
        rw [ih]
        tauto

theorem mem_scanon (x : UUID) (l : List UUID) : x ∈ scanon l ↔ x ∈ l := by
  induction l with
  | nil => simp [scanon]
  | cons y ys ih =>
    simp only [scanon, List.foldr_cons] at ih ⊢
    rw [mem_sinsert, ih, List.mem_cons]

theorem mem_sremove (x y : UUID) (l : List UUID) :
    x ∈ sremove y l ↔ x ∈ l ∧ x ≠ y := by
  simp only [sremove, List.mem_filter, bne_iff_ne, ne_eq]

theorem sremove_isEmpty (y : UUID) (l : List UUID) :
    (sremove y l).isEmpty = true ↔ ∀ x ∈ l, x = y := by
  rw [List.isEmpty_iff, sremove, List.filter_eq_nil_iff]
  constructor
  · intro h x hx
    have := h x hx
    simpa [bne_iff_ne] using this
  · intro h x hx
    simp [bne_iff_ne]
    exact h x hx

theorem relGet_dset_self (r : List (UUID × List UUID)) (k : UUID) (v : List UUID) :
    relGet (dset r k v) k = v := by
  rw [relGet, dget_dset_self]
  rfl

theorem relGet_dset_ne (r : List (UUID × List UUID)) {k j : UUID} (v : List UUID)
    (h : k ≠ j) : relGet (dset r k v) j = relGet r j := by
  rw [relGet, dget_dset_ne r v h, relGet]

theorem relGet_dpop_self {r : List (UUID × List UUID)} (k : UUID)
    (h : (dkeys r).Nodup) : relGet (dpop r k) k = [] := by
  rw [relGet, dget_dpop_self k h]
  rfl

theorem relGet_dpop_ne (r : List (UUID × List UUID)) {k j : UUID}
    (h : k ≠ j) : relGet (dpop r k) j = relGet r j := by
  rw [relGet, dget_dpop_ne r h, relGet]

theorem relGet_of_dmem_false {r : List (UUID × List UUID)} {k : UUID}
    (h : dmem r k = false) : relGet r k = [] := by
  rw [relGet]
  cases he : dget r k with
  | none => rfl
  | some v =>
    rw [dmem, he] at h
    simp at h

/-! Claim C10. -/

/-- C10: for an id whose status is terminal or unknown, `Canceller.cancel`
raises (`TaskStatusError` or `TaskNotFoundError` respectively) before any
event interaction: the stored state and the event cache are unchanged and no
topic is notified. -/
theorem c10_cancel_raises_before_events
    (st : State) (cache : List String) (requestId : UUID) (now : PyDateTime) :
    (dget st.statuses requestId = none →
      cancel requestId now st cache = (.error (.taskNotFoundError requestId), st, cache, [])) ∧
    (∀ s, dget st.statuses requestId = some s → s.isFinished = true →
      cancel requestId now st cache = (.error (.taskStatusError requestId s), st, cache, [])) := by
  constructor
  · intro h
    simp only [cancel, moveTaskToCancelled, h]
  · intro s h hf
    cases s with
    | pending => simp [Status.isFinished] at hf
    | running => simp [Status.isFinished] at hf
    | cancelled => simp only [cancel, moveTaskToCancelled, h]
    | failed => simp only [cancel, moveTaskToCancelled, h]
    | completed => simp only [cancel, moveTaskToCancelled, h]

/-- Witness for C10 on concrete states: an unknown id and a completed task. -/
theorem c10_cancel_raises_before_events_witness :
    cancel "z" "t9" exStCompleted [] =
      (.error (.taskNotFoundError "z"), exStCompleted, [], []) ∧
    cancel "a" "t9" exStCompleted [] =
      (.error (.taskStatusError "a" Status.completed), exStCompleted, [], []) :=
  ⟨(c10_cancel_raises_before_events exStCompleted [] "z" "t9").1 rfl,
   (c10_cancel_raises_before_events exStCompleted [] "a" "t9").2 Status.completed rfl rfl⟩

/-! Claim C7. -/

/-- C7: `move_task_to_cancelled` raises `TaskNotFoundError` for an unknown
id and `TaskStatusError` for a terminal status, and succeeds exactly from
pending and running; the committed cancelled record carries the running
record's `started` forward and records no `started` when cancelled from
pending. -/
theorem c7_move_to_cancelled_behaviour (st : State) (taskId : UUID) (now : PyDateTime)
    (hc : StatusesConsistent st) :
    (dget st.statuses taskId = none →
      moveTaskToCancelled taskId now st = (.error (.taskNotFoundError taskId), st)) ∧
    (∀ s, dget st.statuses taskId = some s → s.isFinished = true →
      moveTaskToCancelled taskId now st = (.error (.taskStatusError taskId s), st)) ∧
    (dget st.statuses taskId = some Status.pending →
      ∃ p st2, dget st.tasks.pending taskId = some p ∧
        moveTaskToCancelled taskId now st =
          (.ok { task := p.task, scheduled := p.scheduled, started := none, cancelled := now }, st2) ∧
        dget st2.tasks.cancelled taskId =
          some { task := p.task, scheduled := p.scheduled, started := none, cancelled := now } ∧
        dget st2.statuses taskId = some Status.cancelled) ∧
    (dget st.statuses taskId = some Status.running →
      ∃ r st2, dget st.tasks.running taskId = some r ∧
        moveTaskToCancelled taskId now st =
          (.ok { task := r.task, scheduled := r.scheduled, started := some r.started, cancelled := now }, st2) ∧
        dget st2.tasks.cancelled taskId =
          some { task := r.task, scheduled := r.scheduled, started := some r.started, cancelled := now } ∧
        dget st2.statuses taskId = some Status.cancelled) := by
  refine ⟨?_, ?_, ?_, ?_⟩
  · intro h
    simp only [moveTaskToCancelled, h]
  · intro s h hf
    cases s with
    | pending => simp [Status.isFinished] at hf
    | running => simp [Status.isFinished] at hf
    | cancelled => simp only [moveTaskToCancelled, h]
    | failed => simp only [moveTaskToCancelled, h]
    | completed => simp only [moveTaskToCancelled, h]
  · intro h
    have hmem := hc _ (dget_some_mem h)
    simp only [statusHasRecord] at hmem
    rw [dmem, Option.isSome_iff_exists] at hmem
    obtain ⟨p, hp⟩ := hmem
    refine ⟨p,
      { st with
        tasks :=
          { st.tasks with
            pending := dpop st.tasks.pending taskId,
            cancelled := dset st.tasks.cancelled taskId
              { task := p.task, scheduled := p.scheduled, started := none, cancelled := now } },
        statuses := dset st.statuses taskId Status.cancelled },
      hp, ?_, ?_, ?_⟩
    · simp only [moveTaskToCancelled, h, hp]
    · exact dget_dset_self _ _ _
    · exact dget_dset_self _ _ _
  · intro h
    have hmem := hc _ (dget_some_mem h)
    simp only [statusHasRecord] at hmem
    rw [dmem, Option.isSome_iff_exists] at hmem
    obtain ⟨r, hr⟩ := hmem
    refine ⟨r,
      { st with
        tasks :=
          { st.tasks with
            running := dpop st.tasks.running taskId,
            cancelled := dset st.tasks.cancelled taskId
              { task := r.task, scheduled := r.scheduled, started := some r.started, cancelled := now } },
        statuses := dset st.statuses taskId Status.cancelled },
      hr, ?_, ?_, ?_⟩
    · simp only [moveTaskToCancelled, h, hr]
    · exact dget_dset_self _ _ _
    · exact dget_dset_self _ _ _

/-- Witness for C7 on a concrete state with a pending and a running task. -/
theorem c7_move_to_cancelled_behaviour_witness :
    (∃ p st2, dget exStPendRun.tasks.pending "a" = some p ∧
      moveTaskToCancelled "a" "t9" exStPendRun =
        (.ok { task := p.task, scheduled := p.scheduled, started := none, cancelled := "t9" }, st2) ∧
      dget st2.tasks.cancelled "a" =
        some { task := p.task, scheduled := p.scheduled, started := none, cancelled := "t9" } ∧
      dget st2.statuses "a" = some Status.cancelled) ∧
    (∃ r st2, dget exStPendRun.tasks.running "b" = some r ∧
      moveTaskToCancelled "b" "t9" exStPendRun =
        (.ok { task := r.task, scheduled := r.scheduled, started := some r.started, cancelled := "t9" }, st2) ∧
      dget st2.tasks.cancelled "b" =
        some { task := r.task, scheduled := r.scheduled, started := some r.started, cancelled := "t9" } ∧
      dget st2.statuses "b" = some Status.cancelled) :=
  ⟨(c7_move_to_cancelled_behaviour exStPendRun "a" "t9" (by decide)).2.2.1 rfl,
   (c7_move_to_cancelled_behaviour exStPendRun "b" "t9" (by decide)).2.2.2 rfl⟩

theorem sinsert_ne_nil (x : UUID) (l : List UUID) : sinsert x l ≠ [] := by
  cases l with
  | nil => simp [sinsert]
  | cons y ys =>
    simp only [sinsert]
    by_cases hz : x = y
    · simp [hz]
    · rw [if_neg hz]
      by_cases hlt : strLtb x y = true
      · simp [hlt]
      · simp [hlt]

theorem scanon_eq_nil_iff (l : List UUID) : scanon l = [] ↔ l = [] := by
  cases l with
  | nil => simp [scanon]
  | cons y ys =>
    simp only [scanon, List.foldr_cons]
    constructor
    · intro h
      exact absurd h (sinsert_ne_nil y _)
    · intro h
      exact absurd h (by simp)

theorem mem_relGet_addDependents (tid : UUID) :
    ∀ (S : List UUID) (depts : List (UUID × List UUID)) (a b : UUID),
      a ∈ relGet (addDependents tid S depts) b ↔
        a ∈ relGet depts b ∨ (a = tid ∧ b ∈ S) := by
  intro S
  induction S with
  | nil =>
    intro depts a b
    simp [addDependents]
  | cons d rest ih =>
    intro depts a b
    simp only [addDependents]
    rw [ih]
    have hgetd : (dget depts d).getD [] = relGet depts d := rfl
    by_cases hb : d = b
    · subst hb
      rw [relGet_dset_self, hgetd, mem_sinsert]
      simp only [List.mem_cons]
      tauto
    · rw [relGet_dset_ne _ _ hb]
      simp only [List.mem_cons]
      constructor
      · rintro (h1 | ⟨h2, h3⟩)
        · exact Or.inl h1
        · exact Or.inr ⟨h2, Or.inr h3⟩
      · rintro (h1 | ⟨h2, h3 | h4⟩)
        · exact Or.inl h1
        · exact absurd h3.symm hb
        · exact Or.inr ⟨h2, h4⟩

/-! Claim C6. -/

/-- C6: `add_pending_task` raises `DependencyNotFoundError`, carrying the new
task's id and leaving the stored state unchanged, exactly when some declared
dependency id is absent from `statuses`; no other error is possible; on
success the record lands in `tasks.pending`, the status is pending, the
`relationships.dependencies` entry is created exactly when the dependency set
is non-empty, and the new id joins each dependency's dependents set. -/
theorem c6_add_pending_validation (st : State) (taskId : UUID) (task : Task)
    (scheduled : PyDateTime) :
    (addPendingTask taskId task scheduled st = (.error (.dependencyNotFoundError taskId), st)
      ↔ ∃ d ∈ dvalues task.dependencies, dmem st.statuses d = false) ∧
    (∀ e st2, addPendingTask taskId task scheduled st = (.error e, st2) →
      e = .dependencyNotFoundError taskId ∧ st2 = st) ∧
    (∀ pt st2, addPendingTask taskId task scheduled st = (.ok pt, st2) →
      pt = { task := task, scheduled := scheduled } ∧
      dget st2.tasks.pending taskId = some { task := task, scheduled := scheduled } ∧
      dget st2.statuses taskId = some Status.pending ∧
      (dvalues task.dependencies = [] →
        st2.relationships.dependencies = st.relationships.dependencies) ∧
      (dvalues task.dependencies ≠ [] →
        dget st2.relationships.dependencies taskId = some (scanon (dvalues task.dependencies))) ∧
      (∀ d ∈ dvalues task.dependencies, taskId ∈ relGet st2.relationships.dependents d)) := by
  by_cases hcond : (dvalues task.dependencies).any (fun d => !(dmem st.statuses d)) = true
  · refine ⟨?_, ?_, ?_⟩
    · constructor
      · intro _
        rw [List.any_eq_true] at hcond
        obtain ⟨d, hd, hdd⟩ := hcond
        exact ⟨d, hd, by simpa using hdd⟩
      · intro _
        simp only [addPendingTask]
        rw [if_pos hcond]
    · intro e st2 h
      simp only [addPendingTask] at h
      rw [if_pos hcond, Prod.mk.injEq] at h
      obtain ⟨h1, h2⟩ := h
      simp only [Except.error.injEq] at h1
      exact ⟨h1.symm, h2.symm⟩
    · intro pt st2 h
      simp only [addPendingTask] at h
      rw [if_pos hcond, Prod.mk.injEq] at h
      exact absurd h.1 (by simp)
  · have hall : ∀ d ∈ dvalues task.dependencies, dmem st.statuses d = true := by
      intro d hd
      by_contra hc
      exact hcond (List.any_eq_true.mpr ⟨d, hd, by
        simp only [Bool.not_eq_true] at hc
        rw [hc]
        rfl⟩)
    refine ⟨?_, ?_, ?_⟩
    · constructor
      · intro h
        simp only [addPendingTask] at h
        rw [if_neg hcond, Prod.mk.injEq] at h
        exact absurd h.1 (by simp)
      · rintro ⟨d, hd, hdd⟩
        rw [hall d hd] at hdd
        exact absurd hdd (by simp)
    · intro e st2 h
      simp only [addPendingTask] at h
      rw [if_neg hcond, Prod.mk.injEq] at h
      exact absurd h.1 (by simp)
    · intro pt st2 h
      simp only [addPendingTask] at h
      rw [if_neg hcond] at h
      by_cases hS : (scanon (dvalues task.dependencies)).isEmpty = true
      · rw [if_pos hS] at h
        have hSnil : scanon (dvalues task.dependencies) = [] := List.isEmpty_iff.mp hS
        have hvnil : dvalues task.dependencies = [] := (scanon_eq_nil_iff _).mp hSnil
        rw [Prod.mk.injEq] at h
        obtain ⟨h1, h2⟩ := h
        simp only [Except.ok.injEq] at h1
        refine ⟨h1.symm, ?_, ?_, ?_, ?_, ?_⟩
        · rw [← h2]
          exact dget_dset_self _ _ _
        · rw [← h2]
          exact dget_dset_self _ _ _
        · intro _
          rw [← h2]
        · intro hv
          exact absurd hvnil hv
        · intro d hd
          rw [hvnil] at hd
          simp at hd
      · rw [if_neg hS] at h
        have hvne : dvalues task.dependencies ≠ [] := by
          intro hv
          exact hS (by rw [(scanon_eq_nil_iff _).mpr hv]; rfl)
        rw [Prod.mk.injEq] at h
        obtain ⟨h1, h2⟩ := h
        simp only [Except.ok.injEq] at h1
        refine ⟨h1.symm, ?_, ?_, ?_, ?_, ?_⟩
        · rw [← h2]
          exact dget_dset_self _ _ _
        · rw [← h2]
          exact dget_dset_self _ _ _
        · intro hv
          exact absurd hv hvne
        · intro _
          rw [← h2]
          exact dget_dset_self _ _ _
        · intro d hd
          rw [← h2]
          rw [mem_relGet_addDependents]
          exact Or.inr ⟨rfl, (mem_scanon _ _).mpr hd⟩

/-- Witness for C6: adding a task depending on the completed task of a
concrete state commits a pending record, and the dependents back-edge. -/
theorem c6_add_pending_validation_witness :
    dget ((addPendingTask "b" exTaskDepA "t3" exStCompleted).2).statuses "b" = some Status.pending ∧
    "b" ∈ relGet ((addPendingTask "b" exTaskDepA "t3" exStCompleted).2).relationships.dependents "a" := by
  obtain ⟨h1, h2, h3, h4, h5, h6⟩ :=
    (c6_add_pending_validation exStCompleted "b" exTaskDepA "t3").2.2
      { task := exTaskDepA, scheduled := "t3" }
      (addPendingTask "b" exTaskDepA "t3" exStCompleted).2 rfl
  exact ⟨h3, h6 "a" (by simp [exTaskDepA, dvalues])⟩

/-! Unfolding lemmas for the fixed-point loop, and concrete evaluation. -/

theorem reapLoop_eq_ok (pred : Transfer.FinishedTask → Bool) (st : State)
    (pool removed : List UUID) (trace : List ReapEvent) (st2 : State)
    (pool2 removed2 : List UUID) (trace2 : List ReapEvent)
    (h : reapPass pred pool st pool removed trace = .ok (st2, pool2, removed2, trace2)) :
    reapLoop pred st pool removed trace =
      if pool2.length = pool.length then .ok (st2, removed2, trace2)
      else reapLoop pred st2 pool2 removed2 trace2 := by
  rw [reapLoop.eq_def]
  split
  · rename_i e he
    rw [he] at h
    cases h
  · rename_i st3 pool3 removed3 trace3 he
    rw [he] at h
    injection h with h2
    injection h2 with ha hb
    injection hb with hc hd
    injection hd with he2 hf
    subst ha
    subst hc
    subst he2
    subst hf
    split
    · rename_i hlen
      rfl
    · rename_i hlen
      rfl

theorem reapLoop_eq_error (pred : Transfer.FinishedTask → Bool) (st : State)
    (pool removed : List UUID) (trace : List ReapEvent) (e : PyErr)
    (h : reapPass pred pool st pool removed trace = .error e) :
    reapLoop pred st pool removed trace = .error e := by
  rw [reapLoop.eq_def]
  split
  · rename_i e2 he
    rw [he] at h
    injection h with h2
    rw [h2]
  · rename_i st3 pool3 removed3 trace3 he
    rw [he] at h
    cases h

theorem mem_filterMap_reapEventToCleanEvent {ev : CleanEvent} {tr : List ReapEvent}
    (h : ev ∈ tr.filterMap reapEventToCleanEvent) : ∃ id, ev = CleanEvent.strategyCall id := by
  rw [List.mem_filterMap] at h
  obtain ⟨re, hre, hconv⟩ := h
  cases re with
  | predicateCall id => exact ⟨id, by simpa [reapEventToCleanEvent] using hconv.symm⟩
  | removal id deps => simp [reapEventToCleanEvent] at hconv

theorem clean_eq_of_strategy (strategies : String → Option (Transfer.FinishedTask → List (String × JSON) → Bool))
    (request : CleanRequest) (st : State)
    (strategy : Transfer.FinishedTask → List (String × JSON) → Bool)
    (hstrat : strategies request.strategy.type = some strategy) :
    clean strategies request st =
      match removeStaleTasksTraced (fun task => strategy task request.strategy.parameters) st with
      | .error e => .error e
      | .ok (st2, removed, trace) =>
        .ok (removed, st2, .acquire :: (trace.filterMap reapEventToCleanEvent ++ [.release])) := by
  simp only [clean, hstrat]

theorem clean_exStCompleted_eval :
    clean exStrategies exCleanRequest exStCompleted =
      .ok (["a"], exStEmpty,
        [CleanEvent.acquire, CleanEvent.strategyCall "a", CleanEvent.release]) := by
  rw [clean_eq_of_strategy exStrategies exCleanRequest exStCompleted exAlwaysStrategy rfl]
  have heval : removeStaleTasksTraced
      (fun task => exAlwaysStrategy task exCleanRequest.strategy.parameters) exStCompleted =
      .ok (exStEmpty, ["a"], [ReapEvent.predicateCall "a", ReapEvent.removal "a" []]) := by
    rw [removeStaleTasksTraced]
    have hpool : dkeys (List.filter (fun p => p.2.isFinished) exStCompleted.statuses) = ["a"] := rfl
    rw [hpool]
    rw [reapLoop_eq_ok (fun task => exAlwaysStrategy task exCleanRequest.strategy.parameters)
      exStCompleted ["a"] [] [] exStEmpty [] ["a"]
      [ReapEvent.predicateCall "a", ReapEvent.removal "a" []] rfl]
    rw [if_neg (by decide)]
    rw [reapLoop_eq_ok (fun task => exAlwaysStrategy task exCleanRequest.strategy.parameters)
      exStEmpty [] ["a"]
      [ReapEvent.predicateCall "a", ReapEvent.removal "a" []] exStEmpty [] ["a"]
      [ReapEvent.predicateCall "a", ReapEvent.removal "a" []] rfl]
    rw [if_pos rfl]
  rw [heval]
  rfl

/-! Claim C8. -/

/-- C8 counterexample: on a concrete state with one reapable completed task,
the effect trace of `Cleaner.clean` is acquire, strategy call, release — the
strategy predicate is invoked between the lock acquisition and the release,
refuting the claim that no predicate call happens while the lock is held. -/
theorem c8_counterexample_predicate_inside_lock :
    clean exStrategies exCleanRequest exStCompleted =
      .ok (["a"], exStEmpty,
        [CleanEvent.acquire, CleanEvent.strategyCall "a", CleanEvent.release]) ∧
    ¬ CallsOutsideLock [CleanEvent.acquire, CleanEvent.strategyCall "a", CleanEvent.release] := by
  refine ⟨clean_exStCompleted_eval, ?_⟩
  intro h
  exact h ⟨0, by decide⟩ ⟨2, by decide⟩ ⟨1, by decide⟩ rfl rfl (by decide) (by decide) "a" rfl

/-- C8 amended: during `Cleaner.clean` every invocation of the cleaning
strategy happens while the exclusive lock is held — the successful effect
trace is the lock acquisition, then only strategy calls, then the release. -/
theorem c8_strategy_calls_inside_lock
    (strategies : String → Option (Transfer.FinishedTask → List (String × JSON) → Bool))
    (request : CleanRequest) (st : State) (removed : List UUID) (st2 : State)
    (tr : List CleanEvent)
    (h : clean strategies request st = .ok (removed, st2, tr)) :
    ∃ calls, tr = CleanEvent.acquire :: (calls ++ [CleanEvent.release]) ∧
      ∀ ev ∈ calls, ∃ id, ev = CleanEvent.strategyCall id := by
  cases hstrat : strategies request.strategy.type with
  | none =>
    simp only [clean, hstrat] at h
    exact Except.noConfusion h
  | some strategy =>
    simp only [clean, hstrat] at h
    cases hrm : removeStaleTasksTraced (fun task => strategy task request.strategy.parameters) st with
    | error e =>
      rw [hrm] at h
      exact Except.noConfusion h
    | ok triple =>
      obtain ⟨st3, removed3, trace3⟩ := triple
      rw [hrm] at h
      simp only [Except.ok.injEq, Prod.mk.injEq] at h
      obtain ⟨h1, h2, h3⟩ := h
      refine ⟨trace3.filterMap reapEventToCleanEvent, h3.symm, ?_⟩
      intro ev hev
      exact mem_filterMap_reapEventToCleanEvent hev

/-- Witness for the amended C8 on the concrete clean run. -/
theorem c8_strategy_calls_inside_lock_witness :
    ∃ calls, [CleanEvent.acquire, CleanEvent.strategyCall "a", CleanEvent.release] =
        CleanEvent.acquire :: (calls ++ [CleanEvent.release]) ∧
      ∀ ev ∈ calls, ∃ id, ev = CleanEvent.strategyCall id :=
  c8_strategy_calls_inside_lock exStrategies exCleanRequest exStCompleted ["a"] exStEmpty
    [CleanEvent.acquire, CleanEvent.strategyCall "a", CleanEvent.release]
    clean_exStCompleted_eval

/-! Claim C3. -/

theorem resolveDependencies_error_of_none (resolve : UUID → Option TaskResult)
    (pre : List (String × UUID)) (param : String) (d : UUID) (rest : List (String × UUID))
    (hpre : ∀ q ∈ pre, ∃ r, resolve q.2 = some (TaskResult.completedResult r))
    (hd : resolve d = none) :
    resolveDependencies resolve (pre ++ (param, d) :: rest) =
      .error (.dependencyNotFoundError d) := by
  induction pre with
  | nil => simp [resolveDependencies, hd]
  | cons q qs ih =>
    obtain ⟨r, hr⟩ := hpre q (List.mem_cons_self _ _)
    simp only [List.cons_append, resolveDependencies, hr, List.append_eq]
    rw [ih (fun q2 hq2 => hpre q2 (List.mem_cons_of_mem _ hq2))]

/-- C3 counterexample: in a concrete environment whose resolver knows no task,
running the driver on a pending task with one declared dependency raises
`DependencyNotFoundError` out of `_run_task`, commits no transition at all and
never notifies the finished event — refuting the claim that the task is moved
to failed and the error is not re-raised. -/
theorem c3_counterexample_unknown_dependency_not_failed :
    (runTask exRunEnv "b" "t5").raised = some (.dependencyNotFoundError "a") ∧
    (runTask exRunEnv "b" "t5").commits = [] ∧
    (runTask exRunEnv "b" "t5").finishedNotified = false :=
  ⟨rfl, rfl, rfl⟩

/-- C3 amended: when a declared dependency resolves to `None` (every earlier
dependency having resolved to a completed result), `_run_task` raises
`DependencyNotFoundError` carrying the dependency id: no failed record is
committed, the finished event is not notified, the error escapes `_run_task`
to the enclosing dispatcher task, and the finished event is deleted by the
scope manager. -/
theorem c3_unknown_dependency_raises (env : RunEnv) (taskId : UUID) (now : PyDateTime)
    (task : Task) (pre : List (String × UUID)) (param : String) (d : UUID)
    (rest : List (String × UUID))
    (hget : getTask taskId env.state = .ok task)
    (hop : env.operations task.operation.type = true)
    (hcond : env.conditions task.condition.type = true)
    (hdeps : task.dependencies = pre ++ (param, d) :: rest)
    (hpre : ∀ q ∈ pre, ∃ r, env.resolve q.2 = some (TaskResult.completedResult r))
    (hd : env.resolve d = none) :
    runTask env taskId now =
      { finalState := env.state, commits := [], finishedNotified := false,
        finishedDeleted := true, raised := some (.dependencyNotFoundError d) } := by
  have hres : resolveDependencies env.resolve task.dependencies =
      .error (.dependencyNotFoundError d) := by
    rw [hdeps]
    exact resolveDependencies_error_of_none env.resolve pre param d rest hpre hd
  simp [runTask, hget, hop, hcond, hres]

/-- Witness for the amended C3 on the concrete environment. -/
theorem c3_unknown_dependency_raises_witness :
    runTask exRunEnv "b" "t5" =
      { finalState := exRunEnv.state, commits := [], finishedNotified := false,
        finishedDeleted := true, raised := some (.dependencyNotFoundError "a") } :=
  c3_unknown_dependency_raises exRunEnv "b" "t5" exTaskDepA [] "n" "a" [] rfl rfl rfl rfl
    (by simp) rfl

/-! Claim C1. -/

theorem reapPass_pool_length_le (pred : Transfer.FinishedTask → Bool) :
    ∀ (snapshot : List UUID) (st : State) (pool removed : List UUID)
      (trace : List ReapEvent) (st2 : State) (pool2 removed2 : List UUID)
      (trace2 : List ReapEvent),
      reapPass pred snapshot st pool removed trace = .ok (st2, pool2, removed2, trace2) →
      pool2.length ≤ pool.length := by
  intro snapshot
  induction snapshot with
  | nil =>
    intro st pool removed trace st2 pool2 removed2 trace2 h
    simp only [reapPass] at h
    cases h
    exact Nat.le_refl _
  | cons id rest ih =>
    intro st pool removed trace st2 pool2 removed2 trace2 h
    simp only [reapPass] at h
    split at h
    · exact ih st pool removed trace st2 pool2 removed2 trace2 h
    · split at h
      · exact Except.noConfusion h
      · split at h
        · exact ih st pool removed _ st2 pool2 removed2 trace2 h
        · split at h
          · exact Except.noConfusion h
          · have h2 := ih _ _ _ _ st2 pool2 removed2 trace2 h
            exact Nat.le_trans h2 (List.Sublist.length_le (List.erase_sublist id pool))

theorem reapPass_removed_events (pred : Transfer.FinishedTask → Bool) :
    ∀ (snapshot : List UUID) (st : State) (pool removed : List UUID)
      (trace : List ReapEvent) (st2 : State) (pool2 removed2 : List UUID)
      (trace2 : List ReapEvent),
      reapPass pred snapshot st pool removed trace = .ok (st2, pool2, removed2, trace2) →
      (∀ id ∈ removed, ∃ snap, ReapEvent.removal id snap ∈ trace ∧ dmem snap id = false) →
      ∀ id ∈ removed2, ∃ snap, ReapEvent.removal id snap ∈ trace2 ∧ dmem snap id = false := by
  intro snapshot
  induction snapshot with
  | nil =>
    intro st pool removed trace st2 pool2 removed2 trace2 h hP
    simp only [reapPass, Except.ok.injEq, Prod.mk.injEq] at h
    obtain ⟨h1, h2, h3, h4⟩ := h
    subst h3
    subst h4
    exact hP
  | cons id rest ih =>
    intro st pool removed trace st2 pool2 removed2 trace2 h hP
    simp only [reapPass] at h
    split at h
    · exact ih _ _ _ _ _ _ _ _ h hP
    · rename_i hguard
      split at h
      · exact Except.noConfusion h
      · split at h
        · refine ih _ _ _ _ _ _ _ _ h ?_
          intro id2 hid2
          obtain ⟨snap, hsnap, hdm⟩ := hP id2 hid2
          exact ⟨snap, List.mem_append_left _ hsnap, hdm⟩
        · split at h
          · exact Except.noConfusion h
          · refine ih _ _ _ _ _ _ _ _ h ?_
            intro id2 hid2
            rcases List.mem_append.mp hid2 with hold | hnew
            · obtain ⟨snap, hsnap, hdm⟩ := hP id2 hold
              exact ⟨snap, List.mem_append_left _ hsnap, hdm⟩
            · have hid : id2 = id := by simpa using hnew
              subst hid
              refine ⟨st.relationships.dependents, ?_, ?_⟩
              · apply List.mem_append_right
                simp
              · simpa using hguard

theorem reapLoop_removed_events (pred : Transfer.FinishedTask → Bool) :
    ∀ (n : Nat) (st : State) (pool removed : List UUID) (trace : List ReapEvent)
      (st2 : State) (removed2 : List UUID) (trace2 : List ReapEvent),
      pool.length ≤ n →
      reapLoop pred st pool removed trace = .ok (st2, removed2, trace2) →
      (∀ id ∈ removed, ∃ snap, ReapEvent.removal id snap ∈ trace ∧ dmem snap id = false) →
      ∀ id ∈ removed2, ∃ snap, ReapEvent.removal id snap ∈ trace2 ∧ dmem snap id = false := by
  intro n
  induction n with
  | zero =>
    intro st pool removed trace st2 removed2 trace2 hlen hloop hP
    have hpool : pool = [] := List.length_eq_zero.mp (Nat.le_zero.mp hlen)
    subst hpool
    rw [reapLoop_eq_ok pred st [] removed trace st [] removed trace rfl] at hloop
    rw [if_pos rfl] at hloop
    simp only [Except.ok.injEq, Prod.mk.injEq] at hloop
    obtain ⟨h1, h2, h3⟩ := hloop
    subst h2
    subst h3
    exact hP
  | succ n ihn =>
    intro st pool removed trace st2 removed2 trace2 hlen hloop hP
    cases hpass : reapPass pred pool st pool removed trace with
    | error e =>
      rw [reapLoop_eq_error pred st pool removed trace e hpass] at hloop
      exact Except.noConfusion hloop
    | ok quad =>
      obtain ⟨st3, pool3, removed3, trace3⟩ := quad
      rw [reapLoop_eq_ok pred st pool removed trace st3 pool3 removed3 trace3 hpass] at hloop
      have hP3 := reapPass_removed_events pred pool st pool removed trace st3 pool3 removed3
        trace3 hpass hP
      by_cases hl : pool3.length = pool.length
      · rw [if_pos hl] at hloop
        simp only [Except.ok.injEq, Prod.mk.injEq] at hloop
        obtain ⟨h1, h2, h3⟩ := hloop
        subst h2
        subst h3
        exact hP3
      · rw [if_neg hl] at hloop
        have hle := reapPass_pool_length_le pred pool st pool removed trace st3 pool3 removed3
          trace3 hpass
        exact ihn st3 pool3 removed3 trace3 st2 removed2 trace2
          (Nat.le_of_lt_succ (Nat.lt_of_lt_of_le (Nat.lt_of_le_of_ne hle hl) hlen)) hloop hP3

/-- C1: every id in the set returned by `remove_stale_tasks` was removed at a
moment when it had no entry in `relationships.dependents`: the trace holds a
removal event for it whose recorded dependents map has no entry for it, so a
finished task on which any task still depends at that moment is never
removed. -/
theorem c1_removed_tasks_had_no_dependents (pred : Transfer.FinishedTask → Bool)
    (st st2 : State) (removed : List UUID) (tr : List ReapEvent)
    (h : removeStaleTasksTraced pred st = .ok (st2, removed, tr)) :
    ∀ id ∈ removed, ∃ snap, ReapEvent.removal id snap ∈ tr ∧ dmem snap id = false := by
  rw [removeStaleTasksTraced] at h
  exact reapLoop_removed_events pred
    (dkeys (List.filter (fun p => p.2.isFinished) st.statuses)).length st _ [] [] st2 removed tr
    (Nat.le_refl _) h (by simp)

theorem removeStale_exStCompleted_eval :
    removeStaleTasksTraced (fun _ => true) exStCompleted =
      .ok (exStEmpty, ["a"], [ReapEvent.predicateCall "a", ReapEvent.removal "a" []]) := by
  rw [removeStaleTasksTraced]
  have hpool : dkeys (List.filter (fun p => p.2.isFinished) exStCompleted.statuses) = ["a"] := rfl
  rw [hpool]
  rw [reapLoop_eq_ok (fun _ => true) exStCompleted ["a"] [] [] exStEmpty [] ["a"]
    [ReapEvent.predicateCall "a", ReapEvent.removal "a" []] rfl]
  rw [if_neg (by decide)]
  rw [reapLoop_eq_ok (fun _ => true) exStEmpty [] ["a"]
    [ReapEvent.predicateCall "a", ReapEvent.removal "a" []] exStEmpty [] ["a"]
    [ReapEvent.predicateCall "a", ReapEvent.removal "a" []] rfl]
  rw [if_pos rfl]

/-- Witness for C1 on the concrete reap of a completed task. -/
theorem c1_removed_tasks_had_no_dependents_witness :
    ∃ snap, ReapEvent.removal "a" snap ∈
        [ReapEvent.predicateCall "a", ReapEvent.removal "a" []] ∧ dmem snap "a" = false :=
  c1_removed_tasks_had_no_dependents (fun _ => true) exStCompleted exStEmpty ["a"]
    [ReapEvent.predicateCall "a", ReapEvent.removal "a" []] removeStale_exStCompleted_eval
    "a" (by simp)

/-! Claim C2. -/

theorem dget_eq_of_mem_nodup {α : Type} {d : List (String × α)} {k : String} {v : α}
    (hnod : (dkeys d).Nodup) (hmem : (k, v) ∈ d) : dget d k = some v := by
  induction d with
  | nil => simp at hmem
  | cons p rest ih =>
    rcases List.mem_cons.mp hmem with heq | hmem2
    · rw [← heq]
      simp [dget]
    · have hk : p.1 ≠ k := by
        intro hpk
        have hkin : k ∈ dkeys rest := List.mem_map_of_mem Prod.fst hmem2
        rw [← hpk] at hkin
        exact (List.nodup_cons.mp hnod).1 hkin
      simp only [dget]
      rw [if_neg hk]
      exact ih (List.nodup_cons.mp hnod).2 hmem2

theorem removeTaskEntry_statuses {taskId : UUID} {st st3 : State}
    (h : removeTaskEntry taskId st = .ok st3) :
    st3.statuses = dpop st.statuses taskId := by
  simp only [removeTaskEntry] at h
  repeat' split at h
  all_goals
    first
      | exact Except.noConfusion h
      | (injection h with h2; rw [← h2])

theorem reapPass_reapInv (pred : Transfer.FinishedTask → Bool) (st0 : State) :
    ∀ (snapshot : List UUID) (st : State) (pool removed : List UUID) (trace : List ReapEvent)
      (st2 : State) (pool2 removed2 : List UUID) (trace2 : List ReapEvent),
      reapPass pred snapshot st pool removed trace = .ok (st2, pool2, removed2, trace2) →
      snapshot.Nodup → (∀ x ∈ snapshot, x ∈ pool) →
      ReapInv st0 st pool removed →
      ReapInv st0 st2 pool2 removed2 := by
  intro snapshot
  induction snapshot with
  | nil =>
    intro st pool removed trace st2 pool2 removed2 trace2 h hnod hsub hInv
    simp only [reapPass, Except.ok.injEq, Prod.mk.injEq] at h
    obtain ⟨h1, h2, h3, h4⟩ := h
    subst h1
    subst h2
    subst h3
    exact hInv
  | cons id rest ih =>
    intro st pool removed trace st2 pool2 removed2 trace2 h hnod hsub hInv
    have hnod2 : rest.Nodup := (List.nodup_cons.mp hnod).2
    have hidrest : id ∉ rest := (List.nodup_cons.mp hnod).1
    simp only [reapPass] at h
    split at h
    · exact ih _ _ _ _ _ _ _ _ h hnod2 (fun x hx => hsub x (List.mem_cons_of_mem _ hx)) hInv
    · rename_i hguard
      split at h
      · exact Except.noConfusion h
      · split at h
        · exact ih _ _ _ _ _ _ _ _ h hnod2 (fun x hx => hsub x (List.mem_cons_of_mem _ hx)) hInv
        · split at h
          · exact Except.noConfusion h
          · rename_i st3 hrem
            obtain ⟨hN, hPN, hpooliff, hremnone, hunch, hrem0⟩ := hInv
            have hidpool : id ∈ pool := hsub id (List.mem_cons_self _ _)
            have hstat : st3.statuses = dpop st.statuses id := removeTaskEntry_statuses hrem
            obtain ⟨s, hs, hsfin⟩ := (hpooliff id).mp hidpool
            have hidnotrem : id ∉ removed := by
              intro hin
              rw [hremnone id hin] at hs
              exact Option.noConfusion hs
            refine ih _ _ _ _ _ _ _ _ h hnod2 ?_ ?_
            · intro x hx
              exact (List.Nodup.mem_erase_iff hPN).mpr
                ⟨fun hxe => hidrest (hxe ▸ hx), hsub x (List.mem_cons_of_mem _ hx)⟩
            · refine ⟨?_, ?_, ?_, ?_, ?_, ?_⟩
              · rw [hstat]
                exact nodup_dkeys_dpop _ hN
              · exact hPN.erase _
              · intro id2
                rw [List.Nodup.mem_erase_iff hPN, hstat]
                constructor
                · rintro ⟨hne, hp⟩
                  rw [dget_dpop_ne _ (fun hh => hne hh.symm)]
                  exact (hpooliff id2).mp hp
                · rintro ⟨s2, hs2, hfin2⟩
                  by_cases hne : id2 = id
                  · subst hne
                    rw [dget_dpop_self _ hN] at hs2
                    exact Option.noConfusion hs2
                  · rw [dget_dpop_ne _ (fun hh => hne hh.symm)] at hs2
                    exact ⟨hne, (hpooliff id2).mpr ⟨s2, hs2, hfin2⟩⟩
              · intro id2 hid2
                rw [hstat]
                rcases List.mem_append.mp hid2 with hold | hnew
                · by_cases hne : id2 = id
                  · subst hne
                    exact dget_dpop_self _ hN
                  · rw [dget_dpop_ne _ (fun hh => hne hh.symm)]
                    exact hremnone id2 hold
                · have hne : id2 = id := by simpa using hnew
                  subst hne
                  exact dget_dpop_self _ hN
              · intro id2 hid2
                have hnotold : id2 ∉ removed := fun hin => hid2 (List.mem_append_left _ hin)
                have hneid : id2 ≠ id := fun hin => hid2 (List.mem_append_right _ (by simp [hin]))
                rw [hstat, dget_dpop_ne _ (fun hh => hneid hh.symm)]
                exact hunch id2 hnotold
              · intro id2 hid2
                rcases List.mem_append.mp hid2 with hold | hnew
                · exact hrem0 id2 hold
                · have hne : id2 = id := by simpa using hnew
                  subst hne
                  refine ⟨s, ?_, hsfin⟩
                  rw [← hunch id2 hidnotrem]
                  exact hs

theorem reapPass_true_no_removal :
    ∀ (snapshot : List UUID) (st : State) (pool removed : List UUID) (trace : List ReapEvent)
      (st2 : State) (pool2 removed2 : List UUID) (trace2 : List ReapEvent),
      reapPass (fun _ => true) snapshot st pool removed trace = .ok (st2, pool2, removed2, trace2) →
      (∀ x ∈ snapshot, x ∈ pool) →
      pool2.length = pool.length →
      st2 = st ∧ pool2 = pool ∧ removed2 = removed ∧
        ∀ x ∈ snapshot, dmem st.relationships.dependents x = true := by
  intro snapshot
  induction snapshot with
  | nil =>
    intro st pool removed trace st2 pool2 removed2 trace2 h hsub hlen
    simp only [reapPass, Except.ok.injEq, Prod.mk.injEq] at h
    obtain ⟨h1, h2, h3, h4⟩ := h
    exact ⟨h1.symm, h2.symm, h3.symm, by simp⟩
  | cons id rest ih =>
    intro st pool removed trace st2 pool2 removed2 trace2 h hsub hlen
    simp only [reapPass] at h
    split at h
    · rename_i hguard
      obtain ⟨he1, he2, he3, hall⟩ :=
        ih _ _ _ _ _ _ _ _ h (fun x hx => hsub x (List.mem_cons_of_mem _ hx)) hlen
      refine ⟨he1, he2, he3, ?_⟩
      intro x hx
      rcases List.mem_cons.mp hx with hxe | hx2
      · rw [hxe]
        exact hguard
      · exact hall x hx2
    · rename_i hguard
      split at h
      · exact Except.noConfusion h
      · split at h
        · rename_i hfalse
          simp at hfalse
        · split at h
          · exact Except.noConfusion h
          · rename_i st3 hrem
            have hle := reapPass_pool_length_le (fun _ => true) rest st3 (pool.erase id) _ _
              st2 pool2 removed2 trace2 h
            have hlt : (pool.erase id).length < pool.length := by
              rw [List.length_erase_of_mem (hsub id (List.mem_cons_self _ _))]
              have hpos : 0 < pool.length :=
                List.length_pos.mpr (fun hnil => by
                  rw [hnil] at hsub
                  exact absurd (hsub id (List.mem_cons_self _ _)) (by simp))
              omega
            omega

theorem reapLoop_true_fixpoint (st0 : State) :
    ∀ (n : Nat) (st : State) (pool removed : List UUID) (trace : List ReapEvent)
      (st2 : State) (removed2 : List UUID) (trace2 : List ReapEvent),
      pool.length ≤ n →
      ReapInv st0 st pool removed →
      reapLoop (fun _ => true) st pool removed trace = .ok (st2, removed2, trace2) →
      ∃ pool2, ReapInv st0 st2 pool2 removed2 ∧
        ∀ x ∈ pool2, dmem st2.relationships.dependents x = true := by
  intro n
  induction n with
  | zero =>
    intro st pool removed trace st2 removed2 trace2 hlen hInv hloop
    have hpool : pool = [] := List.length_eq_zero.mp (Nat.le_zero.mp hlen)
    subst hpool
    rw [reapLoop_eq_ok _ st [] removed trace st [] removed trace rfl] at hloop
    rw [if_pos rfl] at hloop
    simp only [Except.ok.injEq, Prod.mk.injEq] at hloop
    obtain ⟨h1, h2, h3⟩ := hloop
    subst h1
    subst h2
    refine ⟨[], hInv, by simp⟩
  | succ n ihn =>
    intro st pool removed trace st2 removed2 trace2 hlen hInv hloop
    cases hpass : reapPass (fun _ => true) pool st pool removed trace with
    | error e =>
      rw [reapLoop_eq_error _ st pool removed trace e hpass] at hloop
      exact Except.noConfusion hloop
    | ok quad =>
      obtain ⟨st3, pool3, removed3, trace3⟩ := quad
      rw [reapLoop_eq_ok _ st pool removed trace st3 pool3 removed3 trace3 hpass] at hloop
      by_cases hl : pool3.length = pool.length
      · rw [if_pos hl] at hloop
        simp only [Except.ok.injEq, Prod.mk.injEq] at hloop
        obtain ⟨h1, h2, h3⟩ := hloop
        obtain ⟨he1, he2, he3, hall⟩ :=
          reapPass_true_no_removal pool st pool removed trace st3 pool3 removed3 trace3 hpass
            (fun x hx => hx) hl
        subst h1
        subst h2
        subst he1
        subst he3
        refine ⟨pool, hInv, hall⟩
      · rw [if_neg hl] at hloop
        have hInv3 := reapPass_reapInv (fun _ => true) st0 pool st pool removed trace st3 pool3
          removed3 trace3 hpass hInv.2.1 (fun x hx => hx) hInv
        have hle := reapPass_pool_length_le (fun _ => true) pool st pool removed trace st3 pool3
          removed3 trace3 hpass
        exact ihn st3 pool3 removed3 trace3 st2 removed2 trace2
          (Nat.le_of_lt_succ (Nat.lt_of_lt_of_le (Nat.lt_of_le_of_ne hle hl) hlen)) hInv3 hloop

theorem reapInv_init (st : State) (hnod : (dkeys st.statuses).Nodup) :
    ReapInv st st (dkeys (List.filter (fun p => p.2.isFinished) st.statuses)) [] := by
  refine ⟨hnod, ?_, ?_, ?_, ?_, ?_⟩
  · exact hnod.sublist (List.Sublist.map Prod.fst (List.filter_sublist _))
  · intro id
    constructor
    · intro hid
      rw [dkeys, List.mem_map] at hid
      obtain ⟨p, hp, hpid⟩ := hid
      rw [List.mem_filter] at hp
      refine ⟨p.2, ?_, hp.2⟩
      have hd := dget_eq_of_mem_nodup hnod (show (p.1, p.2) ∈ st.statuses from hp.1)
      rw [hpid] at hd
      exact hd
    · rintro ⟨s, hs, hfin⟩
      have hmem := dget_some_mem hs
      rw [dkeys, List.mem_map]
      exact ⟨(id, s), List.mem_filter.mpr ⟨hmem, hfin⟩, rfl⟩
  · intro id hid
    simp at hid
  · intro id _
    rfl
  · intro id hid
    simp at hid

/-- C2: with the always-true predicate, `remove_stale_tasks` reaches a fixed
point: in the final state no finished task without a dependents entry remains,
and the returned ids are exactly the union of the ids removed across all
passes — the ids finished at the start whose status entry is gone at the
end. -/
theorem c2_remove_stale_fixpoint (st st2 : State) (removed : List UUID) (tr : List ReapEvent)
    (hnod : (dkeys st.statuses).Nodup)
    (h : removeStaleTasksTraced (fun _ => true) st = .ok (st2, removed, tr)) :
    (∀ id s, dget st2.statuses id = some s → s.isFinished = true →
      dmem st2.relationships.dependents id = true) ∧
    (∀ id, id ∈ removed ↔
      ((∃ s, dget st.statuses id = some s ∧ s.isFinished = true) ∧
        dget st2.statuses id = none)) := by
  rw [removeStaleTasksTraced] at h
  obtain ⟨pool2, hInv2, hall⟩ := reapLoop_true_fixpoint st
    (dkeys (List.filter (fun p => p.2.isFinished) st.statuses)).length st
    (dkeys (List.filter (fun p => p.2.isFinished) st.statuses)) [] [] st2 removed tr
    (Nat.le_refl _) (reapInv_init st hnod) h
  obtain ⟨hN2, hPN2, hpool2, hremnone, hunch, hrem0⟩ := hInv2
  constructor
  · intro id s hs hfin
    exact hall id ((hpool2 id).mpr ⟨s, hs, hfin⟩)
  · intro id
    constructor
    · intro hid
      exact ⟨hrem0 id hid, hremnone id hid⟩
    · rintro ⟨⟨s, hs0, hfin⟩, hnone⟩
      by_contra hnotin
      rw [hunch id hnotin, hs0] at hnone
      exact Option.noConfusion hnone

/-- Witness for C2 on the concrete reap of a completed task. -/
theorem c2_remove_stale_fixpoint_witness :
    "a" ∈ ["a"] ↔
      ((∃ s, dget exStCompleted.statuses "a" = some s ∧ s.isFinished = true) ∧
        dget exStEmpty.statuses "a" = none) :=
  (c2_remove_stale_fixpoint exStCompleted exStEmpty ["a"]
    [ReapEvent.predicateCall "a", ReapEvent.removal "a" []] (by decide)
    removeStale_exStCompleted_eval).2 "a"

/-! Claim C5. -/

theorem dmem_dpop_ne {α : Type} (d : List (String × α)) {k j : String} (h : k ≠ j) :
    dmem (dpop d k) j = dmem d j := by
  rw [dmem, dget_dpop_ne d h, dmem]

theorem dmem_dset_of_mem {α : Type} {d : List (String × α)} {k : String} (v : α) (j : String)
    (hk : dmem d k = true) : dmem (dset d k v) j = dmem d j := by
  by_cases hj : j = k
  · subst hj
    rw [dmem, dget_dset_self, hk]
    rfl
  · rw [dmem, dget_dset_ne d v (fun hh => hj hh.symm), dmem]

theorem dmem_dset_true_of {α : Type} (d : List (String × α)) (k : String) (v : α) {j : String}
    (h : dmem d j = true) : dmem (dset d k v) j = true := by
  by_cases hj : j = k
  · subst hj
    rw [dmem, dget_dset_self]
    rfl
  · rw [dmem, dget_dset_ne d v (fun hh => hj hh.symm)]
    exact h

theorem mem_relIds_key {r : List (UUID × List UUID)} {a b : UUID} (h : b ∈ relGet r a) :
    a ∈ relIds r := by
  rw [relGet] at h
  cases hd : dget r a with
  | none =>
    rw [hd] at h
    simp at h
  | some s =>
    exact List.mem_append_left _ (List.mem_map_of_mem Prod.fst (dget_some_mem hd))

theorem mem_relIds_val {r : List (UUID × List UUID)} {a b : UUID} (h : b ∈ relGet r a) :
    b ∈ relIds r := by
  rw [relGet] at h
  cases hd : dget r a with
  | none =>
    rw [hd] at h
    simp at h
  | some s =>
    rw [hd] at h
    refine List.mem_append_right _ ?_
    rw [List.mem_flatten]
    exact ⟨s, List.mem_map_of_mem Prod.snd (dget_some_mem hd), h⟩

theorem mirror_of_check {st : State} (h : mirrorCheck st = true) : Mirror st := by
  intro a b
  rw [mirrorCheck, List.all_eq_true] at h
  by_cases hdep : b ∈ relGet st.relationships.dependencies a
  · have ha : a ∈ mirrorSupport st := List.mem_append_left _ (mem_relIds_key hdep)
    have hb : b ∈ mirrorSupport st := List.mem_append_left _ (mem_relIds_val hdep)
    have h2 := h a ha
    rw [List.all_eq_true] at h2
    have h3 := h2 b hb
    rw [Bool.and_eq_true] at h3
    have hiff := decide_eq_decide.mp (beq_iff_eq.mp h3.1)
    have h5 := h3.2
    rw [decide_eq_true hdep] at h5
    simp only [Bool.not_true, Bool.false_or, Bool.and_eq_true] at h5
    exact ⟨hiff, fun _ => h5⟩
  · constructor
    · constructor
      · intro hb2
        exact absurd hb2 hdep
      · intro hdepts
        have hbk : b ∈ mirrorSupport st := List.mem_append_right _ (mem_relIds_key hdepts)
        have hav : a ∈ mirrorSupport st := List.mem_append_right _ (mem_relIds_val hdepts)
        have h2 := h a hav
        rw [List.all_eq_true] at h2
        have h3 := h2 b hbk
        rw [Bool.and_eq_true] at h3
        have hiff := decide_eq_decide.mp (beq_iff_eq.mp h3.1)
        exact absurd (hiff.mpr hdepts) hdep
    · intro hb2
      exact absurd hb2 hdep

theorem addPending_ok_state (taskId : UUID) (task : Task) (sch : PyDateTime) (st : State)
    (pt : PendingTask) (st2 : State)
    (hok : addPendingTask taskId task sch st = (.ok pt, st2)) :
    st2.statuses = dset st.statuses taskId Status.pending ∧
    st2.relationships.dependents =
      addDependents taskId (scanon (dvalues task.dependencies)) st.relationships.dependents ∧
    ((scanon (dvalues task.dependencies) = [] ∧
        st2.relationships.dependencies = st.relationships.dependencies) ∨
      (scanon (dvalues task.dependencies) ≠ [] ∧
        st2.relationships.dependencies =
          dset st.relationships.dependencies taskId (scanon (dvalues task.dependencies)))) ∧
    (∀ d ∈ dvalues task.dependencies, dmem st.statuses d = true) := by
  by_cases hcond : (dvalues task.dependencies).any (fun d => !(dmem st.statuses d)) = true
  · simp only [addPendingTask] at hok
    rw [if_pos hcond, Prod.mk.injEq] at hok
    exact absurd hok.1 (by simp)
  · have hall : ∀ d ∈ dvalues task.dependencies, dmem st.statuses d = true := by
      intro d hd
      by_contra hc
      exact hcond (List.any_eq_true.mpr ⟨d, hd, by
        simp only [Bool.not_eq_true] at hc
        rw [hc]
        rfl⟩)
    simp only [addPendingTask] at hok
    rw [if_neg hcond] at hok
    by_cases hS : (scanon (dvalues task.dependencies)).isEmpty = true
    · rw [if_pos hS] at hok
      have hSnil := List.isEmpty_iff.mp hS
      rw [Prod.mk.injEq] at hok
      obtain ⟨h1, h2⟩ := hok
      exact ⟨by rw [← h2], by rw [← h2], Or.inl ⟨hSnil, by rw [← h2]⟩, hall⟩
    · rw [if_neg hS] at hok
      rw [Prod.mk.injEq] at hok
      obtain ⟨h1, h2⟩ := hok
      exact ⟨by rw [← h2], by rw [← h2],
        Or.inr ⟨fun hh => hS (by rw [hh]; rfl), by rw [← h2]⟩, hall⟩

theorem addPending_mirror (taskId : UUID) (task : Task) (sch : PyDateTime) (st : State)
    (pt : PendingTask) (st2 : State)
    (hM : Mirror st) (hfresh : dmem st.statuses taskId = false)
    (hok : addPendingTask taskId task sch st = (.ok pt, st2)) : Mirror st2 := by
  obtain ⟨hstat, hdepts, hdeps, hall⟩ := addPending_ok_state taskId task sch st pt st2 hok
  set S := scanon (dvalues task.dependencies) with hSdef
  have hSin : ∀ d ∈ S, dmem st.statuses d = true := fun d hd => hall d ((mem_scanon d _).mp hd)
  have hdepsT : relGet st.relationships.dependencies taskId = [] := by
    cases hl : relGet st.relationships.dependencies taskId with
    | nil => rfl
    | cons c cs =>
      have hc : c ∈ relGet st.relationships.dependencies taskId := by
        rw [hl]
        simp
      have hcc := (hM taskId c).2 hc
      rw [hfresh] at hcc
      exact absurd hcc.1 (by simp)
  have hnodeps : ∀ x, taskId ∉ relGet st.relationships.dependencies x := by
    intro x hin
    have hcc := (hM x taskId).2 hin
    rw [hfresh] at hcc
    exact absurd hcc.2 (by simp)
  have hnodepts : ∀ x, taskId ∉ relGet st.relationships.dependents x := by
    intro x hin
    have hcc := (hM taskId x).1.mpr hin
    rw [hdepsT] at hcc
    exact absurd hcc (List.not_mem_nil x)
  have hdeps2 : ∀ a, relGet st2.relationships.dependencies a =
      (if a = taskId then S else relGet st.relationships.dependencies a) := by
    intro a
    rcases hdeps with ⟨hSnil, heq⟩ | ⟨hSne, heq⟩
    · rw [heq]
      by_cases ha : a = taskId
      · rw [if_pos ha, ha, hdepsT, hSnil]
      · rw [if_neg ha]
    · rw [heq]
      by_cases ha : a = taskId
      · rw [if_pos ha, ha, relGet_dset_self]
      · rw [if_neg ha, relGet_dset_ne _ _ (fun hh => ha hh.symm)]
  have hdeptsMem : ∀ x y, x ∈ relGet st2.relationships.dependents y ↔
      (x ∈ relGet st.relationships.dependents y ∨ (x = taskId ∧ y ∈ S)) := by
    intro x y
    rw [hdepts]
    exact mem_relGet_addDependents taskId S _ x y
  intro a b
  constructor
  · rw [hdeps2, hdeptsMem]
    by_cases ha : a = taskId
    · rw [if_pos ha]
      subst ha
      constructor
      · intro hb
        exact Or.inr ⟨rfl, hb⟩
      · rintro (hb | ⟨h1, h2⟩)
        · exact absurd hb (hnodepts b)
        · exact h2
    · rw [if_neg ha]
      constructor
      · intro hb
        exact Or.inl ((hM a b).1.mp hb)
      · rintro (hb | ⟨h1, h2⟩)
        · exact (hM a b).1.mpr hb
        · exact absurd h1 ha
  · rw [hdeps2]
    by_cases ha : a = taskId
    · rw [if_pos ha]
      intro hb
      subst ha
      constructor
      · rw [hstat, dmem, dget_dset_self]
        rfl
      · rw [hstat]
        exact dmem_dset_true_of _ _ _ (hSin b hb)
    · rw [if_neg ha]
      intro hb
      have hends := (hM a b).2 hb
      rw [hstat]
      exact ⟨dmem_dset_true_of _ _ _ hends.1, dmem_dset_true_of _ _ _ hends.2⟩

theorem mirror_of_shape {st st2 : State} (hrel : st2.relationships = st.relationships)
    (hst : ∀ x, dmem st2.statuses x = dmem st.statuses x) (hM : Mirror st) : Mirror st2 := by
  intro a b
  rw [hrel]
  exact ⟨(hM a b).1, fun hb => by
    rw [hst a, hst b]
    exact (hM a b).2 hb⟩

theorem moveTaskToRunning_ok_shape {taskId : UUID} {t : PyDateTime} {st : State}
    {r : RunningTask} {st2 : State} (h : moveTaskToRunning taskId t st = (.ok r, st2)) :
    st2.relationships = st.relationships ∧
    st2.statuses = dset st.statuses taskId Status.running ∧
    dmem st.statuses taskId = true := by
  simp only [moveTaskToRunning] at h
  split at h
  · rw [Prod.mk.injEq] at h
    exact absurd h.1 (by simp)
  · rename_i status hs
    split at h
    · rw [Prod.mk.injEq] at h
      exact absurd h.1 (by simp)
    · split at h
      · rw [Prod.mk.injEq] at h
        exact absurd h.1 (by simp)
      · rw [Prod.mk.injEq] at h
        exact ⟨by rw [← h.2], by rw [← h.2], by rw [dmem, hs]; rfl⟩

theorem moveTaskToCancelled_ok_shape {taskId : UUID} {t : PyDateTime} {st : State}
    {c : CancelledTask} {st2 : State} (h : moveTaskToCancelled taskId t st = (.ok c, st2)) :
    st2.relationships = st.relationships ∧
    st2.statuses = dset st.statuses taskId Status.cancelled ∧
    dmem st.statuses taskId = true := by
  simp only [moveTaskToCancelled] at h
  split at h
  · rw [Prod.mk.injEq] at h
    exact absurd h.1 (by simp)
  · rename_i hs
    split at h
    · rw [Prod.mk.injEq] at h
      exact absurd h.1 (by simp)
    · rw [Prod.mk.injEq] at h
      exact ⟨by rw [← h.2], by rw [← h.2], by rw [dmem, hs]; rfl⟩
  · rename_i hs
    split at h
    · rw [Prod.mk.injEq] at h
      exact absurd h.1 (by simp)
    · rw [Prod.mk.injEq] at h
      exact ⟨by rw [← h.2], by rw [← h.2], by rw [dmem, hs]; rfl⟩
  · rw [Prod.mk.injEq] at h
    exact absurd h.1 (by simp)

theorem moveTaskToFailed_ok_shape {taskId : UUID} {t : PyDateTime} {err : String} {st : State}
    {f : FailedTask} {st2 : State} (h : moveTaskToFailed taskId t err st = (.ok f, st2)) :
    st2.relationships = st.relationships ∧
    st2.statuses = dset st.statuses taskId Status.failed ∧
    dmem st.statuses taskId = true := by
  simp only [moveTaskToFailed] at h
  split at h
  · rw [Prod.mk.injEq] at h
    exact absurd h.1 (by simp)
  · rename_i status hs
    split at h
    · rw [Prod.mk.injEq] at h
      exact absurd h.1 (by simp)
    · split at h
      · rw [Prod.mk.injEq] at h
        exact absurd h.1 (by simp)
      · rw [Prod.mk.injEq] at h
        exact ⟨by rw [← h.2], by rw [← h.2], by rw [dmem, hs]; rfl⟩

theorem moveTaskToCompleted_ok_shape {taskId : UUID} {t : PyDateTime} {res : JSON} {st : State}
    {c : CompletedTask} {st2 : State} (h : moveTaskToCompleted taskId t res st = (.ok c, st2)) :
    st2.relationships = st.relationships ∧
    st2.statuses = dset st.statuses taskId Status.completed ∧
    dmem st.statuses taskId = true := by
  simp only [moveTaskToCompleted] at h
  split at h
  · rw [Prod.mk.injEq] at h
    exact absurd h.1 (by simp)
  · rename_i status hs
    split at h
    · rw [Prod.mk.injEq] at h
      exact absurd h.1 (by simp)
    · split at h
      · rw [Prod.mk.injEq] at h
        exact absurd h.1 (by simp)
      · rw [Prod.mk.injEq] at h
        exact ⟨by rw [← h.2], by rw [← h.2], by rw [dmem, hs]; rfl⟩

theorem dropDependents_relGet (taskId : UUID) :
    ∀ (D : List UUID) (depts depts2 : List (UUID × List UUID)),
      dropDependents taskId D depts = .ok depts2 →
      (dkeys depts).Nodup →
      (dkeys depts2).Nodup ∧
        ∀ a b, a ∈ relGet depts2 b ↔
          (a ∈ relGet depts b ∧ ¬(a = taskId ∧ b ∈ D)) := by
  intro D
  induction D with
  | nil =>
    intro depts depts2 h hnod
    simp only [dropDependents, Except.ok.injEq] at h
    subst h
    exact ⟨hnod, fun a b => by simp⟩
  | cons d rest ih =>
    intro depts depts2 h hnod
    simp only [dropDependents] at h
    split at h
    · rename_i hnone
      obtain ⟨hnod2, hiff⟩ := ih _ _ h hnod
      refine ⟨hnod2, fun a b => ?_⟩
      rw [hiff]
      by_cases hb : b = d
      · subst hb
        rw [relGet, hnone]
        simp
      · simp only [List.mem_cons]
        constructor
        · rintro ⟨hm, hn⟩
          exact ⟨hm, fun hcon => hn ⟨hcon.1, by
            rcases hcon.2 with hbd | hbr
            · exact absurd hbd hb
            · exact hbr⟩⟩
        · rintro ⟨hm, hn⟩
          exact ⟨hm, fun hcon => hn ⟨hcon.1, Or.inr hcon.2⟩⟩
    · rename_i s hsome
      split at h
      · rename_i htin
        by_cases hemp : (sremove taskId s).isEmpty = true
        · rw [if_pos hemp] at h
          obtain ⟨hnod2, hiff⟩ := ih _ _ h (nodup_dkeys_dpop _ hnod)
          have hallt : ∀ x ∈ s, x = taskId := (sremove_isEmpty taskId s).mp hemp
          refine ⟨hnod2, fun a b => ?_⟩
          rw [hiff]
          by_cases hb : b = d
          · subst hb
            rw [relGet_dpop_self _ hnod]
            simp only [List.not_mem_nil, false_and, not_false_iff, and_true]
            constructor
            · intro hfalse
              exact hfalse.elim
            · rintro ⟨hm, hn⟩
              rw [relGet, hsome] at hm
              have hat : a = taskId := hallt a hm
              exact hn ⟨hat, by simp⟩
          · rw [relGet_dpop_ne _ (fun hh => hb hh.symm)]
            simp only [List.mem_cons]
            constructor
            · rintro ⟨hm, hn⟩
              exact ⟨hm, fun hcon => hn ⟨hcon.1, by
                rcases hcon.2 with hbd | hbr
                · exact absurd hbd hb
                · exact hbr⟩⟩
            · rintro ⟨hm, hn⟩
              exact ⟨hm, fun hcon => hn ⟨hcon.1, Or.inr hcon.2⟩⟩
        · rw [if_neg hemp] at h
          obtain ⟨hnod2, hiff⟩ := ih _ _ h (nodup_dkeys_dset _ _ hnod)
          refine ⟨hnod2, fun a b => ?_⟩
          rw [hiff]
          by_cases hb : b = d
          · subst hb
            rw [relGet_dset_self, relGet, hsome]
            rw [mem_sremove]
            simp only [List.mem_cons]
            constructor
            · rintro ⟨⟨hm, hat⟩, hn⟩
              exact ⟨hm, fun hcon => hat hcon.1⟩
            · rintro ⟨hm, hn⟩
              have hat : a ≠ taskId := fun hcon => hn ⟨hcon, by simp⟩
              exact ⟨⟨hm, hat⟩, fun hcon => hat hcon.1⟩
          · rw [relGet_dset_ne _ _ (fun hh => hb hh.symm)]
            simp only [List.mem_cons]
            constructor
            · rintro ⟨hm, hn⟩
              exact ⟨hm, fun hcon => hn ⟨hcon.1, by
                rcases hcon.2 with hbd | hbr
                · exact absurd hbd hb
                · exact hbr⟩⟩
            · rintro ⟨hm, hn⟩
              exact ⟨hm, fun hcon => hn ⟨hcon.1, Or.inr hcon.2⟩⟩
      · exact Except.noConfusion h

theorem removeTaskEntry_ok_shape {taskId : UUID} {st st3 : State}
    (h : removeTaskEntry taskId st = .ok st3) :
    st3.statuses = dpop st.statuses taskId ∧
    st3.relationships.dependencies = dpop st.relationships.dependencies taskId ∧
    dropDependents taskId ((dget st.relationships.dependencies taskId).getD [])
      st.relationships.dependents = .ok st3.relationships.dependents := by
  simp only [removeTaskEntry] at h
  repeat' split at h
  all_goals first
    | exact Except.noConfusion h
    | (injection h with h2; subst h2; exact ⟨rfl, rfl, by assumption⟩)

theorem removeTaskEntry_mirror {taskId : UUID} {st st3 : State}
    (h : removeTaskEntry taskId st = .ok st3)
    (hM : Mirror st) (hRN : RelKeysNodup st)
    (hguard : dmem st.relationships.dependents taskId = false) :
    Mirror st3 ∧ RelKeysNodup st3 := by
  obtain ⟨hstat, hdeps, hdrop⟩ := removeTaskEntry_ok_shape h
  obtain ⟨hdN, hpN⟩ := hRN
  obtain ⟨hnodup3, hiff⟩ := dropDependents_relGet taskId _ _ _ hdrop hdN
  have hDdef : ((dget st.relationships.dependencies taskId).getD []) =
      relGet st.relationships.dependencies taskId := rfl
  have hd2 : ∀ a, relGet st3.relationships.dependencies a =
      (if a = taskId then [] else relGet st.relationships.dependencies a) := by
    intro a
    rw [hdeps]
    by_cases ha : a = taskId
    · rw [if_pos ha, ha]
      exact relGet_dpop_self _ hpN
    · rw [if_neg ha]
      exact relGet_dpop_ne _ (fun hh => ha hh.symm)
  constructor
  · intro a b
    constructor
    · rw [hd2, hiff a b]
      by_cases ha : a = taskId
      · rw [if_pos ha]
        subst ha
        constructor
        · intro hb
          exact absurd hb (List.not_mem_nil b)
        · rintro ⟨hmem, hnot⟩
          have hbD : b ∈ relGet st.relationships.dependencies a := (hM a b).1.mpr hmem
          exact absurd ⟨rfl, by rw [hDdef]; exact hbD⟩ hnot
      · rw [if_neg ha]
        constructor
        · intro hb
          exact ⟨(hM a b).1.mp hb, fun hcon => ha hcon.1⟩
        · rintro ⟨hmem, _⟩
          exact (hM a b).1.mpr hmem
    · rw [hd2]
      by_cases ha : a = taskId
      · rw [if_pos ha]
        intro hb
        exact absurd hb (List.not_mem_nil b)
      · rw [if_neg ha]
        intro hb
        have hends := (hM a b).2 hb
        have hbne : b ≠ taskId := by
          intro hbe
          subst hbe
          have hmm : a ∈ relGet st.relationships.dependents b := (hM a b).1.mp hb
          rw [relGet_of_dmem_false hguard] at hmm
          exact absurd hmm (List.not_mem_nil a)
        rw [hstat, dmem_dpop_ne _ (fun hh => ha hh.symm), dmem_dpop_ne _ (fun hh => hbne hh.symm)]
        exact hends
  · exact ⟨hnodup3, by rw [hdeps]; exact nodup_dkeys_dpop _ hpN⟩

theorem reapPass_mirror (pred : Transfer.FinishedTask → Bool) :
    ∀ (snapshot : List UUID) (st : State) (pool removed : List UUID) (trace : List ReapEvent)
      (st2 : State) (pool2 removed2 : List UUID) (trace2 : List ReapEvent),
      reapPass pred snapshot st pool removed trace = .ok (st2, pool2, removed2, trace2) →
      Mirror st → RelKeysNodup st →
      Mirror st2 ∧ RelKeysNodup st2 := by
  intro snapshot
  induction snapshot with
  | nil =>
    intro st pool removed trace st2 pool2 removed2 trace2 h hM hRN
    simp only [reapPass, Except.ok.injEq, Prod.mk.injEq] at h
    obtain ⟨h1, h2, h3, h4⟩ := h
    subst h1
    exact ⟨hM, hRN⟩
  | cons id rest ih =>
    intro st pool removed trace st2 pool2 removed2 trace2 h hM hRN
    simp only [reapPass] at h
    split at h
    · exact ih _ _ _ _ _ _ _ _ h hM hRN
    · rename_i hguard
      split at h
      · exact Except.noConfusion h
      · split at h
        · exact ih _ _ _ _ _ _ _ _ h hM hRN
        · split at h
          · exact Except.noConfusion h
          · rename_i st3 hrem
            have hgf : dmem st.relationships.dependents id = false := by
              simpa using hguard
            obtain ⟨hM3, hRN3⟩ := removeTaskEntry_mirror hrem hM hRN hgf
            exact ih _ _ _ _ _ _ _ _ h hM3 hRN3

theorem reapLoop_mirror (pred : Transfer.FinishedTask → Bool) :
    ∀ (n : Nat) (st : State) (pool removed : List UUID) (trace : List ReapEvent)
      (st2 : State) (removed2 : List UUID) (trace2 : List ReapEvent),
      pool.length ≤ n →
      reapLoop pred st pool removed trace = .ok (st2, removed2, trace2) →
      Mirror st → RelKeysNodup st →
      Mirror st2 ∧ RelKeysNodup st2 := by
  intro n
  induction n with
  | zero =>
    intro st pool removed trace st2 removed2 trace2 hlen hloop hM hRN
    have hpool : pool = [] := List.length_eq_zero.mp (Nat.le_zero.mp hlen)
    subst hpool
    rw [reapLoop_eq_ok pred st [] removed trace st [] removed trace rfl] at hloop
    rw [if_pos rfl] at hloop
    simp only [Except.ok.injEq, Prod.mk.injEq] at hloop
    obtain ⟨h1, h2, h3⟩ := hloop
    subst h1
    exact ⟨hM, hRN⟩
  | succ n ihn =>
    intro st pool removed trace st2 removed2 trace2 hlen hloop hM hRN
    cases hpass : reapPass pred pool st pool removed trace with
    | error e =>
      rw [reapLoop_eq_error pred st pool removed trace e hpass] at hloop
      exact Except.noConfusion hloop
    | ok quad =>
      obtain ⟨st3, pool3, removed3, trace3⟩ := quad
      rw [reapLoop_eq_ok pred st pool removed trace st3 pool3 removed3 trace3 hpass] at hloop
      obtain ⟨hM3, hRN3⟩ := reapPass_mirror pred pool st pool removed trace st3 pool3 removed3
        trace3 hpass hM hRN
      by_cases hl : pool3.length = pool.length
      · rw [if_pos hl] at hloop
        simp only [Except.ok.injEq, Prod.mk.injEq] at hloop
        obtain ⟨h1, h2, h3⟩ := hloop
        subst h1
        exact ⟨hM3, hRN3⟩
      · rw [if_neg hl] at hloop
        have hle := reapPass_pool_length_le pred pool st pool removed trace st3 pool3 removed3
          trace3 hpass
        exact ihn st3 pool3 removed3 trace3 st2 removed2 trace2
          (Nat.le_of_lt_succ (Nat.lt_of_lt_of_le (Nat.lt_of_le_of_ne hle hl) hlen)) hloop hM3 hRN3

/-- C5 amended: every modifier operation preserves the mirror invariant,
`add_pending_task` under the proviso that the added id is fresh (not already
in `statuses`), as its callers guarantee. -/
theorem c5_modifier_ops_preserve_mirror (op : ModOp) (st st2 : State)
    (hM : Mirror st) (hRN : RelKeysNodup st) (hfresh : op.freshFor st)
    (hrun : op.run st = some st2) : Mirror st2 := by
  cases op with
  | addPending taskId task sch =>
    rcases hap : addPendingTask taskId task sch st with ⟨res, s⟩
    simp only [ModOp.run, hap] at hrun
    cases res with
    | error e => exact Option.noConfusion hrun
    | ok pt =>
      injection hrun with h2
      subst h2
      exact addPending_mirror taskId task sch st pt _ hM hfresh hap
  | toRunning taskId t =>
    rcases hap : moveTaskToRunning taskId t st with ⟨res, s⟩
    simp only [ModOp.run, hap] at hrun
    cases res with
    | error e => exact Option.noConfusion hrun
    | ok r =>
      injection hrun with h2
      subst h2
      obtain ⟨hrel, hstat, hmem⟩ := moveTaskToRunning_ok_shape hap
      exact mirror_of_shape hrel (fun x => by rw [hstat]; exact dmem_dset_of_mem _ x hmem) hM
  | toCancelled taskId t =>
    rcases hap : moveTaskToCancelled taskId t st with ⟨res, s⟩
    simp only [ModOp.run, hap] at hrun
    cases res with
    | error e => exact Option.noConfusion hrun
    | ok c =>
      injection hrun with h2
      subst h2
      obtain ⟨hrel, hstat, hmem⟩ := moveTaskToCancelled_ok_shape hap
      exact mirror_of_shape hrel (fun x => by rw [hstat]; exact dmem_dset_of_mem _ x hmem) hM
  | toFailed taskId t err =>
    rcases hap : moveTaskToFailed taskId t err st with ⟨res, s⟩
    simp only [ModOp.run, hap] at hrun
    cases res with
    | error e => exact Option.noConfusion hrun
    | ok f =>
      injection hrun with h2
      subst h2
      obtain ⟨hrel, hstat, hmem⟩ := moveTaskToFailed_ok_shape hap
      exact mirror_of_shape hrel (fun x => by rw [hstat]; exact dmem_dset_of_mem _ x hmem) hM
  | toCompleted taskId t res0 =>
    rcases hap : moveTaskToCompleted taskId t res0 st with ⟨res, s⟩
    simp only [ModOp.run, hap] at hrun
    cases res with
    | error e => exact Option.noConfusion hrun
    | ok c =>
      injection hrun with h2
      subst h2
      obtain ⟨hrel, hstat, hmem⟩ := moveTaskToCompleted_ok_shape hap
      exact mirror_of_shape hrel (fun x => by rw [hstat]; exact dmem_dset_of_mem _ x hmem) hM
  | removeStale pred =>
    simp only [ModOp.run] at hrun
    cases htr : removeStaleTasksTraced pred st with
    | error e =>
      rw [removeStaleTasks, htr] at hrun
      exact Option.noConfusion hrun
    | ok triple =>
      obtain ⟨st3, removed3, tr3⟩ := triple
      rw [removeStaleTasks, htr] at hrun
      injection hrun with h2
      subst h2
      rw [removeStaleTasksTraced] at htr
      exact (reapLoop_mirror pred
        (dkeys (List.filter (fun p => p.2.isFinished) st.statuses)).length st
        (dkeys (List.filter (fun p => p.2.isFinished) st.statuses)) [] [] st3 removed3 tr3
        (Nat.le_refl _) htr hM hRN).1

/-- C5 counterexample: on a well-formed mirror-satisfying state that already
holds the added id, `add_pending_task` succeeds but the committed state
violates the mirror invariant — the overwritten dependencies entry loses the
edge to `x` while the dependents of `x` keep the back-edge. -/
theorem c5_counterexample_readd_breaks_mirror :
    Mirror exStMirror ∧
    addPendingTask "a" exTaskDepY "t4" exStMirror =
      (.ok { task := exTaskDepY, scheduled := "t4" }, exStMirror2) ∧
    ¬ Mirror exStMirror2 := by
  refine ⟨mirror_of_check (by decide), rfl, ?_⟩
  intro hM
  have h1 := (hM "a" "x").1.mpr (by decide)
  exact absurd h1 (by decide)

/-- Witness for the amended C5, moving a pending task to running on a
concrete state. -/
theorem c5_modifier_ops_preserve_mirror_witness : Mirror exStPendRun2 :=
  c5_modifier_ops_preserve_mirror (ModOp.toRunning "a" "t9") exStPendRun exStPendRun2
    (mirror_of_check (by decide)) ⟨by decide, by decide⟩ trivial rfl

/-! Claim C9. -/

/-- C9: if the added id is fresh and state edges join known ids, an acyclic
dependency graph stays acyclic across `add_pending_task` — every added edge
points from the fresh id to an id already in `statuses` — and a task
declaring its own (fresh) id as a dependency is rejected with
`DependencyNotFoundError`, because validation runs before the id is inserted
into `statuses`. -/
theorem c9_add_pending_preserves_acyclicity (st : State) (taskId : UUID) (task : Task)
    (sch : PyDateTime)
    (hfresh : dmem st.statuses taskId = false)
    (hedges : EdgesInStatuses st)
    (hacyc : AcyclicDeps st) :
    (∀ pt st2, addPendingTask taskId task sch st = (.ok pt, st2) → AcyclicDeps st2) ∧
    (taskId ∈ dvalues task.dependencies →
      addPendingTask taskId task sch st = (.error (.dependencyNotFoundError taskId), st)) := by
  constructor
  · intro pt st2 hok
    obtain ⟨hstat, hdepts, hdeps, hall⟩ := addPending_ok_state taskId task sch st pt st2 hok
    have hSin : ∀ d ∈ scanon (dvalues task.dependencies), dmem st.statuses d = true :=
      fun d hd => hall d ((mem_scanon d _).mp hd)
    have hdeps2 : ∀ a, relGet st2.relationships.dependencies a =
        (if a = taskId then scanon (dvalues task.dependencies)
          else relGet st.relationships.dependencies a) := by
      intro a
      rcases hdeps with ⟨hSnil, heq⟩ | ⟨hSne, heq⟩
      · rw [heq]
        by_cases ha : a = taskId
        · rw [if_pos ha, hSnil]
          subst ha
          cases hl : relGet st.relationships.dependencies a with
          | nil => rfl
          | cons c cs =>
            have hc : c ∈ relGet st.relationships.dependencies a := by
              rw [hl]
              simp
            have := (hedges a c hc).1
            rw [hfresh] at this
            exact absurd this (by simp)
        · rw [if_neg ha]
      · rw [heq]
        by_cases ha : a = taskId
        · rw [if_pos ha, ha, relGet_dset_self]
        · rw [if_neg ha, relGet_dset_ne _ _ (fun hh => ha hh.symm)]
    have hnoin : ∀ x, ¬ DepEdge st2 x taskId := by
      intro x hx
      rw [DepEdge, hdeps2] at hx
      by_cases hxt : x = taskId
      · rw [if_pos hxt] at hx
        have := hSin taskId hx
        rw [hfresh] at this
        exact Bool.noConfusion this
      · rw [if_neg hxt] at hx
        have := (hedges x taskId hx).2
        rw [hfresh] at this
        exact Bool.noConfusion this
    have hA : ∀ x y, Relation.TransGen (DepEdge st2) x y → y ≠ taskId := by
      intro x y hxy
      cases hxy with
      | single h1 =>
        intro he
        subst he
        exact hnoin _ h1
      | tail hp h1 =>
        intro he
        subst he
        exact hnoin _ h1
    have hconv : ∀ z y, z ≠ taskId → DepEdge st2 z y → DepEdge st z y := by
      intro z y hz hzy
      rw [DepEdge, hdeps2, if_neg hz] at hzy
      exact hzy
    have hB : ∀ x y, Relation.TransGen (DepEdge st2) x y → x ≠ taskId →
        Relation.TransGen (DepEdge st) x y := by
      intro x y hxy
      induction hxy with
      | single h1 =>
        intro hx
        exact Relation.TransGen.single (hconv _ _ hx h1)
      | tail hp h1 ih =>
        intro hx
        rename_i z _
        have hz : z ≠ taskId := hA _ _ hp
        exact Relation.TransGen.tail (ih hx) (hconv _ _ hz h1)
    intro a hcyc
    by_cases hat : a = taskId
    · exact hA _ _ hcyc hat
    · exact hacyc a (hB a a hcyc hat)
  · intro hmem
    have hcond : (dvalues task.dependencies).any (fun d => !(dmem st.statuses d)) = true :=
      List.any_eq_true.mpr ⟨taskId, hmem, by rw [hfresh]; rfl⟩
    simp only [addPendingTask]
    rw [if_pos hcond]

/-- Witness for C9: adding a dependent task to a concrete one-task state
keeps the dependency graph acyclic. -/
theorem c9_add_pending_preserves_acyclicity_witness :
    AcyclicDeps ((addPendingTask "b" exTaskDepA "t3" exStCompleted).2) :=
  (c9_add_pending_preserves_acyclicity exStCompleted "b" exTaskDepA "t3" (by decide)
    (by
      intro a b hedge
      simp [DepEdge, relGet, exStCompleted, exNoRels, dget] at hedge)
    (by
      intro a hcyc
      cases hcyc with
      | single h1 => simp [DepEdge, relGet, exStCompleted, exNoRels, dget] at h1
      | tail hp h1 => simp [DepEdge, relGet, exStCompleted, exNoRels, dget] at h1)).1
    { task := exTaskDepA, scheduled := "t3" }
    ((addPendingTask "b" exTaskDepA "t3" exStCompleted).2) rfl

/-! Claim C4. -/

theorem map_str_uuid_id (l : List (String × String)) :
    (l.map (fun p => (p.1, uuidOfStr p.2))).map (fun p => (p.1, strOfUUID p.2)) = l := by
  rw [List.map_map]
  exact List.map_id l

theorem task_roundtrip (t : Storage.Task) : (Task.deserialize t).serialize = t := by
  simp only [Task.serialize, Task.deserialize, Specification.serialize,
    Specification.deserialize]
  rw [map_str_uuid_id]

theorem pendingTask_roundtrip (p : Storage.PendingTask) :
    (PendingTask.deserialize p).serialize = p := by
  simp only [PendingTask.serialize, PendingTask.deserialize]
  rw [task_roundtrip]
  rfl

theorem runningTask_roundtrip (p : Storage.RunningTask) :
    (RunningTask.deserialize p).serialize = p := by
  simp only [RunningTask.serialize, RunningTask.deserialize]
  rw [task_roundtrip]
  rfl

theorem cancelledTask_roundtrip (p : Storage.CancelledTask) :
    (CancelledTask.deserialize p).serialize = p := by
  simp only [CancelledTask.serialize, CancelledTask.deserialize]
  rw [task_roundtrip]
  have hst : Option.map isoformat (Option.map fromisoformat p.started) = p.started := by
    cases p.started <;> rfl
  rw [hst]
  rfl

theorem failedTask_roundtrip (p : Storage.FailedTask) :
    (FailedTask.deserialize p).serialize = p := by
  simp only [FailedTask.serialize, FailedTask.deserialize]
  rw [task_roundtrip]
  rfl

theorem completedTask_roundtrip (p : Storage.CompletedTask) :
    (CompletedTask.deserialize p).serialize = p := by
  simp only [CompletedTask.serialize, CompletedTask.deserialize]
  rw [task_roundtrip]
  rfl

theorem task_dict_roundtrip {σ τ : Type} (ser : τ → σ) (des : σ → τ)
    (hrt : ∀ x, ser (des x) = x) (d : List (String × σ)) :
    (d.map (fun p => (uuidOfStr p.1, des p.2))).map (fun p => (strOfUUID p.1, ser p.2)) = d := by
  induction d with
  | nil => rfl
  | cons p rest ih =>
    simp only [List.map_cons]
    rw [ih, hrt]
    rfl

theorem tasks_roundtrip (t : Storage.Tasks) : (Tasks.deserialize t).serialize = t := by
  simp only [Tasks.serialize, Tasks.deserialize]
  rw [task_dict_roundtrip PendingTask.serialize PendingTask.deserialize pendingTask_roundtrip,
    task_dict_roundtrip RunningTask.serialize RunningTask.deserialize runningTask_roundtrip,
    task_dict_roundtrip CancelledTask.serialize CancelledTask.deserialize cancelledTask_roundtrip,
    task_dict_roundtrip FailedTask.serialize FailedTask.deserialize failedTask_roundtrip,
    task_dict_roundtrip CompletedTask.serialize CompletedTask.deserialize completedTask_roundtrip]

theorem statusOfValue_value {s : String} {v : Status} (h : statusOfValue s = some v) :
    v.value = s := by
  rw [statusOfValue] at h
  split_ifs at h with h1 h2 h3 h4 h5
  · injection h with hv
    subst hv
    exact h1.symm
  · injection h with hv
    subst hv
    exact h2.symm
  · injection h with hv
    subst hv
    exact h3.symm
  · injection h with hv
    subst hv
    exact h4.symm
  · injection h with hv
    subst hv
    exact h5.symm

theorem deserializeStatuses_roundtrip :
    ∀ (s : List (String × String)) (l : List (UUID × Status)),
      deserializeStatuses s = some l → serializeStatuses l = s := by
  intro s
  induction s with
  | nil =>
    intro l h
    simp only [deserializeStatuses, Option.some.injEq] at h
    subst h
    rfl
  | cons p rest ih =>
    intro l h
    simp only [deserializeStatuses] at h
    cases hv : statusOfValue p.2 with
    | none =>
      rw [hv] at h
      exact Option.noConfusion h
    | some v =>
      rw [hv] at h
      cases hr : deserializeStatuses rest with
      | none =>
        rw [hr] at h
        exact Option.noConfusion h
      | some r =>
        rw [hr] at h
        injection h with h2
        subst h2
        rw [show serializeStatuses ((uuidOfStr p.1, v) :: r) =
            ((strOfUUID (uuidOfStr p.1), v.value) :: serializeStatuses r) from rfl,
          ih r hr, statusOfValue_value hv]
        rfl

theorem map_strOfUUID_id (l : List UUID) : l.map strOfUUID = l := List.map_id l

theorem map_uuidOfStr_id (l : List String) : l.map uuidOfStr = l := List.map_id l

theorem rel_map_matches (emit : List UUID → List UUID) (hemit : EmitOk emit) :
    ∀ d : List (String × List String),
      List.Forall₂ RelEntryMatches
        ((d.map (fun p => (uuidOfStr p.1, scanon (p.2.map uuidOfStr)))).map
          (fun p => (strOfUUID p.1, (emit p.2).map strOfUUID))) d := by
  intro d
  induction d with
  | nil => exact List.Forall₂.nil
  | cons p rest ih =>
    simp only [List.map_cons]
    refine List.Forall₂.cons ?_ ih
    show RelEntryMatches
      (strOfUUID (uuidOfStr p.1), (emit (scanon (p.2.map uuidOfStr))).map strOfUUID) p
    refine ⟨rfl, ?_, ?_⟩
    · intro u
      rw [show (emit (scanon (p.2.map uuidOfStr))).map strOfUUID
            = emit (scanon (p.2.map uuidOfStr)) from map_strOfUUID_id _,
        map_uuidOfStr_id p.2, (hemit (scanon p.2)).1 u]
      exact mem_scanon u p.2
    · rw [show ((strOfUUID (uuidOfStr p.1),
            (emit (scanon (p.2.map uuidOfStr))).map strOfUUID) : String × List String).2
            = (emit (scanon (p.2.map uuidOfStr))).map strOfUUID from rfl,
        map_strOfUUID_id]
      exact (hemit _).2

/-- C4 counterexample: two valid persisted states differing only in the order
of a relationship array deserialize to the same runtime state, because the
array is rebuilt as a set either way; hence no deterministic re-serialization
of the runtime state — in particular the program's, whatever order its set
iteration yields — restores both of them, so the byte-exact roundtrip fails on
at least one valid persisted state. -/
theorem c4_counterexample_order_not_roundtripped :
    (State.deserialize exStorageBad).isSome = true ∧
    exStorageBad ≠ exStorageSwapped ∧
    State.deserialize exStorageBad = State.deserialize exStorageSwapped ∧
    ∀ f : State → Storage.State,
      (State.deserialize exStorageBad).map f = some exStorageBad →
      (State.deserialize exStorageSwapped).map f = some exStorageSwapped → False := by
  refine ⟨rfl, ?_, rfl, ?_⟩
  · intro h
    have h2 := congrArg (fun s => s.relationships.dependencies) h
    exact absurd h2 (by decide)
  · intro f h1 h2
    rw [show State.deserialize exStorageBad = State.deserialize exStorageSwapped from rfl]
      at h1
    rw [h1] at h2
    injection h2 with h3
    have h4 := congrArg (fun s => s.relationships.dependencies) h3
    exact absurd h4 (by decide)

/-- C4 amended: serialization after deserialization restores the persisted
state up to the order of the relationship arrays — the tasks (with their
ISO-8601 timestamps) and the statuses byte-for-byte, the relationship maps
with the same keys in the same order, and each array re-emitted, in whatever
enumeration the set iteration yields, holding exactly the same ids, each
once. -/
theorem c4_serialize_deserialize_roundtrip (emit : List UUID → List UUID)
    (hemit : EmitOk emit) (x : Storage.State) (rt : State)
    (hdes : State.deserialize x = some rt) :
    RoundtripUpToOrder (State.serializeWith emit rt) x := by
  simp only [State.deserialize] at hdes
  cases hs : deserializeStatuses x.statuses with
  | none =>
    rw [hs] at hdes
    exact Option.noConfusion hdes
  | some sts =>
    rw [hs] at hdes
    injection hdes with h2
    subst h2
    refine ⟨tasks_roundtrip x.tasks, deserializeStatuses_roundtrip _ _ hs, ?_, ?_⟩
    · exact rel_map_matches emit hemit x.relationships.dependents
    · exact rel_map_matches emit hemit x.relationships.dependencies

/-- Witness for the amended C4: the deduplicating enumeration is an admissible
set-iteration order, and the roundtrip up to array order holds of the concrete
stored state whose dependencies array is in non-canonical order. -/
theorem c4_serialize_deserialize_roundtrip_witness :
    RoundtripUpToOrder (State.serializeWith List.dedup exRtShared) exStorageBad :=
  c4_serialize_deserialize_roundtrip List.dedup
    (fun s => ⟨fun _ => List.mem_dedup, List.nodup_dedup s⟩) exStorageBad exRtShared rfl

end PyScheduler
